import Mathlib

set_option maxHeartbeats 1000000

/-! Shallow embedding of the substratechocobos runtime module
(src/substratechocobos/runtime/src/substratechocobos.rs).

Hashes (the type used for ids and genomes) are byte lists, account ids
and balances are naturals, u64 counters are naturals with the explicit
bound 2^64 on checked arithmetic and wrapping on unchecked arithmetic.
Storage maps are functions with pointwise update; removing a key writes
the default value back, matching the storage API used by the source. -/

def U64LIMIT : Nat := 2 ^ 64

/-- u64 checked addition: fails when the sum exceeds the u64 range. -/
def checked_add (a b : Nat) : Option Nat :=
  if a + b < U64LIMIT then some (a + b) else none

/-- u64 checked subtraction: fails on underflow. -/
def checked_sub (a b : Nat) : Option Nat :=
  if b ≤ a then some (a - b) else none

/-- Pointwise map update (storage insert). -/
def upd {α β : Type} [DecidableEq α] (f : α → β) (k : α) (v : β) : α → β :=
  fun x => if x = k then v else f x

theorem upd_self {α β : Type} [DecidableEq α] (f : α → β) (k : α) (v : β) :
    upd f k v k = v := by
  simp [upd]

theorem upd_of_ne {α β : Type} [DecidableEq α] (f : α → β) (k : α) (v : β)
    (x : α) (h : x ≠ k) : upd f k v x = f x := by
  simp [upd, h]

/-- The `Chocobo` struct of the source (fields id, dna, price, gen, wins,
races). dna is the byte sequence of a fixed-width hash. -/
structure Chocobo where
  id : List Nat
  dna : List Nat
  price : Nat
  gen : Nat
  wins : Nat
  races : Nat
deriving DecidableEq

instance : Inhabited Chocobo := ⟨⟨[], [], 0, 0, 0, 0⟩⟩

/-- The error outcomes of the module's dispatchables (string errors in the
source, one constructor per distinct message), plus the error of the
external currency transfer. -/
inductive ChocoErr where
  | DoesNotExist
  | NoOwner
  | NotOwner
  | AlreadyOwner
  | NotForSale
  | PriceTooHigh
  | DuplicateIdentity
  | OwnedCountOverflow
  | AllCountOverflow
  | TransferUnderflow
  | TransferOverflow
  | InsufficientFunds
deriving DecidableEq

/-- Events deposited by the module (decl_event of the source). -/
inductive ChocoEvent where
  | Created (owner : Nat) (id : List Nat)
  | PriceSet (owner : Nat) (id : List Nat) (price : Nat)
  | Transferred (src dst : Nat) (id : List Nat)
  | Bought (buyer seller : Nat) (id : List Nat) (price : Nat)
  | Bred (breeder : Nat) (sire mare child : List Nat)
  | Raced (caller : Nat) (id1 id2 winner : List Nat)
deriving DecidableEq

/-- The decl_storage state of the module, plus the balances of the
external currency collaborator and the deposited event log. -/
structure ChocoState where
  chocobos : List Nat → Option Chocobo
  owners : List Nat → Option Nat
  allArray : Nat → List Nat
  allCount : Nat
  allIndex : List Nat → Nat
  ownedArray : Nat × Nat → List Nat
  ownedCount : Nat → Nat
  ownedIndex : List Nat → Nat
  nonce : Nat
  balances : Nat → Nat
  events : List ChocoEvent

/-- `choco_by_id` getter: a plain storage map returns the default value
for an absent key. -/
def choco_by_id (s : ChocoState) (h : List Nat) : Chocobo :=
  (s.chocobos h).getD default

/-- The state written by a successful `mint(to, choco_id, new_choco)`:
the nine storage writes of the source, in order, plus the Created event. -/
def mkMintState (s : ChocoState) (dst : Nat) (choco_id : List Nat)
    (new_choco : Chocobo) : ChocoState :=
  { s with
    chocobos := upd s.chocobos choco_id (some new_choco),
    owners := upd s.owners choco_id (some dst),
    allArray := upd s.allArray s.allCount choco_id,
    allCount := s.allCount + 1,
    allIndex := upd s.allIndex choco_id s.allCount,
    ownedArray := upd s.ownedArray (dst, s.ownedCount dst) choco_id,
    ownedCount := upd s.ownedCount dst (s.ownedCount dst + 1),
    ownedIndex := upd s.ownedIndex choco_id (s.ownedCount dst),
    events := s.events ++ [.Created dst choco_id] }

/-- `Module::mint`: duplicate-id guard, two checked count increments,
then the writes of `mkMintState`. An error leaves storage untouched
(every error return in the source precedes the first write). -/
def mint (s : ChocoState) (dst : Nat) (choco_id : List Nat)
    (new_choco : Chocobo) : ChocoState × Option ChocoErr :=
  if (s.chocobos choco_id).isSome then (s, some .DuplicateIdentity)
  else
    match checked_add (s.ownedCount dst) 1 with
    | none => (s, some .OwnedCountOverflow)
    | some _ =>
      match checked_add s.allCount 1 with
      | none => (s, some .AllCountOverflow)
      | some _ => (mkMintState s dst choco_id new_choco, none)

/-- The state written by a successful `transfer_from(frm, to, choco_id)`:
the swap-delete on frm's owned array, the reassignment writes, and the
count writes, in source order. `new_count_from` is the checked
decrement, `owned_count_to` the pre-call count of `to`; removal of a key
writes the default hash `[]`. -/
def mkTransferState (s : ChocoState) (frm dst : Nat) (choco_id : List Nat) :
    ChocoState :=
  let new_count_from := s.ownedCount frm - 1
  let owned_count_to := s.ownedCount dst
  let choco_index := s.ownedIndex choco_id
  let movedArray :=
    if choco_index ≠ new_count_from then
      upd s.ownedArray (frm, choco_index) (s.ownedArray (frm, new_count_from))
    else s.ownedArray
  let movedIndex :=
    if choco_index ≠ new_count_from then
      upd s.ownedIndex (s.ownedArray (frm, new_count_from)) choco_index
    else s.ownedIndex
  { s with
    owners := upd s.owners choco_id (some dst),
    ownedIndex := upd movedIndex choco_id owned_count_to,
    ownedArray := upd (upd movedArray (frm, new_count_from) [])
      (dst, owned_count_to) choco_id,
    ownedCount := upd (upd s.ownedCount frm new_count_from) dst
      (owned_count_to + 1),
    events := s.events ++ [.Transferred frm dst choco_id] }

/-- `Module::transfer_from`: ownership guard, checked decrement and
increment, then the writes of `mkTransferState`. -/
def transfer_from (s : ChocoState) (frm dst : Nat) (choco_id : List Nat) :
    ChocoState × Option ChocoErr :=
  match s.owners choco_id with
  | none => (s, some .NoOwner)
  | some owner =>
    if owner = frm then
      match checked_sub (s.ownedCount frm) 1 with
      | none => (s, some .TransferUnderflow)
      | some _ =>
        match checked_add (s.ownedCount dst) 1 with
        | none => (s, some .TransferOverflow)
        | some _ => (mkTransferState s frm dst choco_id, none)
    else (s, some .NotOwner)

/-- `create_chocobo` handler. The externally derived identity
`(random_seed, sender, nonce).using_encoded(hash)` is passed in as the
parameter `random_hash` (the hash function is an external collaborator);
the new chocobo has dna equal to the derived hash and empty history. -/
def create_chocobo (s : ChocoState) (sender : Nat) (random_hash : List Nat) :
    ChocoState × Option ChocoErr :=
  let new_choco : Chocobo := ⟨random_hash, random_hash, 0, 0, 0, 0⟩
  match mint s sender random_hash new_choco with
  | (_, some e) => (s, some e)
  | (s1, none) => ({ s1 with nonce := (s1.nonce + 1) % U64LIMIT }, none)

/-- `set_price` handler. -/
def set_price (s : ChocoState) (sender : Nat) (choco_id : List Nat)
    (new_price : Nat) : ChocoState × Option ChocoErr :=
  if (s.chocobos choco_id).isSome then
    match s.owners choco_id with
    | none => (s, some .NoOwner)
    | some owner =>
      if owner = sender then
        let choco := choco_by_id s choco_id
        ({ s with
           chocobos := upd s.chocobos choco_id
             (some { choco with price := new_price }),
           events := s.events ++ [.PriceSet sender choco_id new_price] },
         none)
      else (s, some .NotOwner)
  else (s, some .DoesNotExist)

/-- `transfer` handler: sender-is-owner guard, then `transfer_from`. -/
def transfer (s : ChocoState) (sender dst : Nat) (choco_id : List Nat) :
    ChocoState × Option ChocoErr :=
  match s.owners choco_id with
  | none => (s, some .NoOwner)
  | some owner =>
    if owner = sender then transfer_from s sender dst choco_id
    else (s, some .NotOwner)

/-- Modelled from the spec: the external currency collaborator's
`transfer(from, to, amount)`, which is not part of this repository.
Per the spec interface it either moves exactly `amount` from the payer
to the payee or fails with InsufficientFunds leaving balances
unchanged. -/
def currency_transfer (s : ChocoState) (src dst : Nat) (amount : Nat) :
    ChocoState × Option ChocoErr :=
  if s.balances src < amount then (s, some .InsufficientFunds)
  else
    let deb := upd s.balances src (s.balances src - amount)
    (({ s with balances := upd deb dst (deb dst + amount) }), none)

/-- Result of the `buy_chocobo` dispatchable: the source calls
`.expect(..)` on the inner `transfer_from`, so a failure there is an
unrecoverable panic, not an error return. -/
inductive BuyResult where
  | ok (s : ChocoState)
  | err (s : ChocoState) (e : ChocoErr)
  | panicked

/-- `buy_chocobo` handler: existence, not-already-owner, for-sale and
max-price guards, the external currency transfer, then `transfer_from`
under `.expect` and the price reset to zero. -/
def buy_chocobo (s : ChocoState) (sender : Nat) (choco_id : List Nat)
    (max_price : Nat) : BuyResult :=
  if (s.chocobos choco_id).isSome then
    match s.owners choco_id with
    | none => .err s .NoOwner
    | some owner =>
      if owner = sender then .err s .AlreadyOwner
      else
        let choco := choco_by_id s choco_id
        let price := choco.price
        if price = 0 then .err s .NotForSale
        else if max_price < price then .err s .PriceTooHigh
        else
          match currency_transfer s sender owner price with
          | (_, some e) => .err s e
          | (s1, none) =>
            match transfer_from s1 owner sender choco_id with
            | (_, some _) => .panicked
            | (s2, none) =>
              .ok { s2 with
                chocobos := upd s2.chocobos choco_id
                  (some { choco with price := 0 }),
                events := s2.events ++
                  [.Bought sender owner choco_id price] }
  else .err s .DoesNotExist

/-- The crossover loop of `breed_chocobo`: the child dna starts as a
copy of the sire's, and position i is overwritten with the mare's byte
when the i-th random byte is even. The loop runs over
`mare.dna.zip(random_hash)` with a running index. -/
def crossoverLoop : List Nat → Nat → List (Nat × Nat) → List Nat
  | child, _, [] => child
  | child, i, (m, r) :: rest =>
    crossoverLoop (if r % 2 = 0 then child.set i m else child) (i + 1) rest

/-- Child dna computation of `breed_chocobo`. -/
def crossover (sire_dna mare_dna rand : List Nat) : List Nat :=
  crossoverLoop sire_dna 0 (mare_dna.zip rand)

/-- `breed_chocobo` handler: parent existence checks, crossover dna,
generation `max(sire.gen, mare.gen) + 1` (unchecked u64 addition, hence
wrapping), mint to the caller, nonce bump, Bred event. The externally
derived identity-and-random-bytes hash is the parameter `random_hash`. -/
def breed_chocobo (s : ChocoState) (sender : Nat) (sire_id mare_id : List Nat)
    (random_hash : List Nat) : ChocoState × Option ChocoErr :=
  if (s.chocobos sire_id).isSome then
    if (s.chocobos mare_id).isSome then
      let sire := choco_by_id s sire_id
      let mare := choco_by_id s mare_id
      let child_dna := crossover sire.dna mare.dna random_hash
      let new_choco : Chocobo :=
        ⟨random_hash, child_dna, 0, (max sire.gen mare.gen + 1) % U64LIMIT,
         0, 0⟩
      match mint s sender random_hash new_choco with
      | (_, some e) => (s, some e)
      | (s1, none) =>
        ({ s1 with
           nonce := (s1.nonce + 1) % U64LIMIT,
           events := s1.events ++ [.Bred sender sire_id mare_id random_hash] },
         none)
    else (s, some .DoesNotExist)
  else (s, some .DoesNotExist)

/-- The duel accumulator of `race`: over the zipped genomes, a position
where contender 1's byte is at least contender 2's increments the
outcome, any other position decrements it. -/
def raceOutcome (dna1 dna2 : List Nat) : Int :=
  (dna1.zip dna2).foldl (fun o p => if p.1 ≥ p.2 then o + 1 else o - 1) 0

/-- `race` handler: existence checks, deterministic outcome accumulator
(the random bytes of the source are computed but commented out and never
used), unchecked (wrapping) races and wins increments, the two inserts
in source order (so with equal ids the second insert wins), nonce bump
and Raced event. -/
def race (s : ChocoState) (sender : Nat) (choco1_id choco2_id : List Nat) :
    ChocoState × Option ChocoErr :=
  if (s.chocobos choco1_id).isSome then
    if (s.chocobos choco2_id).isSome then
      let choco1 := choco_by_id s choco1_id
      let choco2 := choco_by_id s choco2_id
      let outcome := raceOutcome choco1.dna choco2.dna
      let winner := if outcome ≥ 0 then choco1_id else choco2_id
      let choco1u : Chocobo :=
        { choco1 with
          races := (choco1.races + 1) % U64LIMIT,
          wins := if outcome ≥ 0 then (choco1.wins + 1) % U64LIMIT
            else choco1.wins }
      let choco2u : Chocobo :=
        { choco2 with
          races := (choco2.races + 1) % U64LIMIT,
          wins := if outcome ≥ 0 then choco2.wins
            else (choco2.wins + 1) % U64LIMIT }
      ({ s with
         chocobos := upd (upd s.chocobos choco1_id (some choco1u))
           choco2_id (some choco2u),
         nonce := (s.nonce + 1) % U64LIMIT,
         events := s.events ++
           [.Raced sender choco1_id choco2_id winner] },
       none)
    else (s, some .DoesNotExist)
  else (s, some .DoesNotExist)

/-! ## Enumeration invariants -/

/-- Global enumeration invariant: positions below the count hold minted
ids whose reverse index points back at the position, and every minted id
sits at its reverse-index position below the count. Together these make
`allArray` restricted to `0..allCount-1` a bijection onto the minted
ids, so the count equals the number of distinct minted ids. -/
def GlobalInv (s : ChocoState) : Prop :=
  (∀ i, i < s.allCount →
    s.allIndex (s.allArray i) = i ∧ (s.chocobos (s.allArray i)).isSome) ∧
  (∀ h, (s.chocobos h).isSome →
    s.allIndex h < s.allCount ∧ s.allArray (s.allIndex h) = h)

/-- Per-owner enumeration invariant: each owner's array is dense over
`0..ownedCount-1` with a consistent reverse map and slots owned by that
owner, and every owned id appears at its reverse-index slot of its
owner's array. Together these put every existing entity in exactly one
owner's array exactly once. -/
def OwnerInv (s : ChocoState) : Prop :=
  (∀ a i, i < s.ownedCount a →
    s.ownedIndex (s.ownedArray (a, i)) = i ∧
    s.owners (s.ownedArray (a, i)) = some a) ∧
  (∀ h a, s.owners h = some a →
    s.ownedIndex h < s.ownedCount a ∧ s.ownedArray (a, s.ownedIndex h) = h)

/-- Full registry invariant: global and per-owner enumeration
invariants, plus the fact that exactly the minted ids have owners. -/
def RegistryInv (s : ChocoState) : Prop :=
  GlobalInv s ∧ OwnerInv s ∧
  ∀ h, (s.chocobos h).isSome ↔ (s.owners h).isSome

/-- The set of ids enumerated by an owner's array (as a predicate). -/
def ownsAt (s : ChocoState) (a : Nat) (h : List Nat) : Prop :=
  ∃ i, i < s.ownedCount a ∧ s.ownedArray (a, i) = h

/-! ## Characterization of mint and transfer_from -/

theorem mint_err_eq (s : ChocoState) (dst : Nat) (choco_id : List Nat)
    (c : Chocobo) (e : ChocoErr) (h : (mint s dst choco_id c).2 = some e) :
    (mint s dst choco_id c).1 = s := by
  unfold mint at *
  by_cases h1 : (s.chocobos choco_id).isSome <;> simp [h1] at h ⊢
  cases h2 : checked_add (s.ownedCount dst) 1 <;> simp [h2] at h ⊢
  cases h3 : checked_add s.allCount 1 <;> simp [h3] at h ⊢

theorem mint_fail_iff (s : ChocoState) (dst : Nat) (choco_id : List Nat)
    (c : Chocobo) :
    (mint s dst choco_id c).2.isSome ↔
      (s.chocobos choco_id).isSome ∨
      U64LIMIT ≤ s.ownedCount dst + 1 ∨ U64LIMIT ≤ s.allCount + 1 := by
  unfold mint checked_add
  by_cases h1 : (s.chocobos choco_id).isSome <;> simp [h1]
  by_cases h2 : s.ownedCount dst + 1 < U64LIMIT <;> simp [h2]
  · by_cases h3 : s.allCount + 1 < U64LIMIT <;> simp [h3]
    · omega
    · omega
  · omega

theorem mint_ok_eq (s : ChocoState) (dst : Nat) (choco_id : List Nat)
    (c : Chocobo) (h : (mint s dst choco_id c).2 = none) :
    ¬ (s.chocobos choco_id).isSome ∧
    (mint s dst choco_id c).1 = mkMintState s dst choco_id c := by
  unfold mint at *
  by_cases h1 : (s.chocobos choco_id).isSome <;> simp [h1] at h ⊢
  cases h2 : checked_add (s.ownedCount dst) 1 <;> simp [h2] at h ⊢
  cases h3 : checked_add s.allCount 1 <;> simp [h3] at h ⊢

theorem transfer_from_err_eq (s : ChocoState) (frm dst : Nat)
    (choco_id : List Nat) (e : ChocoErr)
    (h : (transfer_from s frm dst choco_id).2 = some e) :
    (transfer_from s frm dst choco_id).1 = s := by
  unfold transfer_from at *
  cases h0 : s.owners choco_id <;> simp [h0] at h ⊢
  rename_i owner
  by_cases h1 : owner = frm <;> simp [h1] at h ⊢
  cases h2 : checked_sub (s.ownedCount frm) 1 <;> simp [h2] at h ⊢
  cases h3 : checked_add (s.ownedCount dst) 1 <;> simp [h3] at h ⊢

theorem transfer_from_ok (s : ChocoState) (frm dst : Nat)
    (choco_id : List Nat)
    (h : (transfer_from s frm dst choco_id).2 = none) :
    s.owners choco_id = some frm ∧ 1 ≤ s.ownedCount frm ∧
    s.ownedCount dst + 1 < U64LIMIT ∧
    (transfer_from s frm dst choco_id).1 = mkTransferState s frm dst choco_id
    := by
  unfold transfer_from at *
  cases h0 : s.owners choco_id <;> simp [h0] at h ⊢
  rename_i owner
  by_cases h1 : owner = frm <;> simp [h1] at h ⊢
  cases h2 : checked_sub (s.ownedCount frm) 1 <;> simp [h2] at h ⊢
  cases h3 : checked_add (s.ownedCount dst) 1 <;> simp [h3] at h ⊢
  unfold checked_sub at h2
  unfold checked_add at h3
  constructor
  · by_cases hb : 1 ≤ s.ownedCount frm
    · exact hb
    · simp [hb] at h2
  · by_cases hc : s.ownedCount dst + 1 < U64LIMIT
    · exact hc
    · simp [hc] at h3

theorem mkMintState_chocobos (s : ChocoState) (dst : Nat) (i : List Nat)
    (c : Chocobo) : (mkMintState s dst i c).chocobos = upd s.chocobos i (some c) := rfl

theorem mkMintState_owners (s : ChocoState) (dst : Nat) (i : List Nat)
    (c : Chocobo) : (mkMintState s dst i c).owners = upd s.owners i (some dst) := rfl

theorem mkMintState_allArray (s : ChocoState) (dst : Nat) (i : List Nat)
    (c : Chocobo) : (mkMintState s dst i c).allArray = upd s.allArray s.allCount i := rfl

theorem mkMintState_allCount (s : ChocoState) (dst : Nat) (i : List Nat)
    (c : Chocobo) : (mkMintState s dst i c).allCount = s.allCount + 1 := rfl

theorem mkMintState_allIndex (s : ChocoState) (dst : Nat) (i : List Nat)
    (c : Chocobo) : (mkMintState s dst i c).allIndex = upd s.allIndex i s.allCount := rfl

theorem mkMintState_ownedArray (s : ChocoState) (dst : Nat) (i : List Nat)
    (c : Chocobo) :
    (mkMintState s dst i c).ownedArray = upd s.ownedArray (dst, s.ownedCount dst) i := rfl

theorem mkMintState_ownedCount (s : ChocoState) (dst : Nat) (i : List Nat)
    (c : Chocobo) :
    (mkMintState s dst i c).ownedCount = upd s.ownedCount dst (s.ownedCount dst + 1) := rfl

theorem mkMintState_ownedIndex (s : ChocoState) (dst : Nat) (i : List Nat)
    (c : Chocobo) :
    (mkMintState s dst i c).ownedIndex = upd s.ownedIndex i (s.ownedCount dst) := rfl

/-- A successful mint of a fresh id preserves the registry invariant. -/
theorem mint_pres (s : ChocoState) (dst : Nat) (choco_id : List Nat)
    (c : Chocobo) (hInv : RegistryInv s)
    (hfresh : ¬ (s.chocobos choco_id).isSome) :
    RegistryInv (mkMintState s dst choco_id c) := by
  obtain ⟨⟨gFwd, gRev⟩, ⟨oFwd, oRev⟩, hiff⟩ := hInv
  have hOwnNone : s.owners choco_id = none := by
    cases ho : s.owners choco_id with
    | none => rfl
    | some a => exact absurd ((hiff choco_id).mpr (by simp [ho])) hfresh
  have hArrNe : ∀ i, i < s.allCount → s.allArray i ≠ choco_id := by
    intro i hi he
    exact hfresh (he ▸ (gFwd i hi).2)
  have hOwnArrNe : ∀ a i, i < s.ownedCount a →
      s.ownedArray (a, i) ≠ choco_id := by
    intro a i hi he
    have h2 := (oFwd a i hi).2
    rw [he, hOwnNone] at h2
    exact Option.noConfusion h2
  refine ⟨⟨?_, ?_⟩, ⟨?_, ?_⟩, ?_⟩
  · intro i hi
    rw [mkMintState_allCount] at hi
    rw [mkMintState_allArray, mkMintState_allIndex, mkMintState_chocobos]
    by_cases hic : i = s.allCount
    · subst hic
      simp [upd_self]
    · have hi2 : i < s.allCount := by omega
      rw [upd_of_ne _ _ _ _ hic, upd_of_ne _ _ _ _ (hArrNe i hi2),
        upd_of_ne _ _ _ _ (hArrNe i hi2)]
      exact gFwd i hi2
  · intro h hsome
    rw [mkMintState_chocobos] at hsome
    rw [mkMintState_allCount, mkMintState_allArray, mkMintState_allIndex]
    by_cases hh : h = choco_id
    · subst hh
      simp [upd_self]
    · rw [upd_of_ne _ _ _ _ hh] at hsome
      obtain ⟨hlt, heq⟩ := gRev h hsome
      rw [upd_of_ne _ _ _ _ hh]
      refine ⟨by omega, ?_⟩
      rw [upd_of_ne _ _ _ _ (by omega : s.allIndex h ≠ s.allCount)]
      exact heq
  · intro a i hi
    rw [mkMintState_ownedCount] at hi
    rw [mkMintState_ownedArray, mkMintState_ownedIndex, mkMintState_owners]
    by_cases had : a = dst
    · subst had
      rw [upd_self] at hi
      by_cases hic : i = s.ownedCount a
      · subst hic
        simp [upd_self]
      · have hi2 : i < s.ownedCount a := by omega
        rw [upd_of_ne _ _ _ _ (by simp [hic] : (a, i) ≠ (a, s.ownedCount a)),
          upd_of_ne _ _ _ _ (hOwnArrNe a i hi2),
          upd_of_ne _ _ _ _ (hOwnArrNe a i hi2)]
        exact oFwd a i hi2
    · rw [upd_of_ne _ _ _ _ had] at hi
      rw [upd_of_ne _ _ _ _ (by simp [had] : (a, i) ≠ (dst, s.ownedCount dst)),
        upd_of_ne _ _ _ _ (hOwnArrNe a i hi),
        upd_of_ne _ _ _ _ (hOwnArrNe a i hi)]
      exact oFwd a i hi
  · intro h a hown
    rw [mkMintState_owners] at hown
    rw [mkMintState_ownedCount, mkMintState_ownedArray, mkMintState_ownedIndex]
    by_cases hh : h = choco_id
    · subst hh
      rw [upd_self] at hown
      have : a = dst := by
        cases hown
        rfl
      subst this
      simp [upd_self]
    · rw [upd_of_ne _ _ _ _ hh] at hown
      obtain ⟨hlt, heq⟩ := oRev h a hown
      rw [upd_of_ne _ _ _ _ hh]
      by_cases had : a = dst
      · subst had
        rw [upd_self]
        refine ⟨by omega, ?_⟩
        rw [upd_of_ne _ _ _ _ (by simp; omega : (a, s.ownedIndex h) ≠ (a, s.ownedCount a))]
        exact heq
      · rw [upd_of_ne _ _ _ _ had]
        refine ⟨hlt, ?_⟩
        rw [upd_of_ne _ _ _ _ (by simp [had] : (a, s.ownedIndex h) ≠ (dst, s.ownedCount dst))]
        exact heq
  · intro h
    rw [mkMintState_chocobos, mkMintState_owners]
    by_cases hh : h = choco_id
    · subst hh
      simp [upd_self]
    · rw [upd_of_ne _ _ _ _ hh, upd_of_ne _ _ _ _ hh]
      exact hiff h

theorem mkTransferState_chocobos (s : ChocoState) (frm dst : Nat)
    (i : List Nat) : (mkTransferState s frm dst i).chocobos = s.chocobos := rfl

theorem mkTransferState_owners (s : ChocoState) (frm dst : Nat)
    (i : List Nat) :
    (mkTransferState s frm dst i).owners = upd s.owners i (some dst) := rfl

theorem mkTransferState_allArray (s : ChocoState) (frm dst : Nat)
    (i : List Nat) : (mkTransferState s frm dst i).allArray = s.allArray := rfl

theorem mkTransferState_allCount (s : ChocoState) (frm dst : Nat)
    (i : List Nat) : (mkTransferState s frm dst i).allCount = s.allCount := rfl

theorem mkTransferState_allIndex (s : ChocoState) (frm dst : Nat)
    (i : List Nat) : (mkTransferState s frm dst i).allIndex = s.allIndex := rfl

theorem mkTransferState_nonce (s : ChocoState) (frm dst : Nat)
    (i : List Nat) : (mkTransferState s frm dst i).nonce = s.nonce := rfl

theorem mkTransferState_balances (s : ChocoState) (frm dst : Nat)
    (i : List Nat) : (mkTransferState s frm dst i).balances = s.balances := rfl

theorem mkTransferState_events (s : ChocoState) (frm dst : Nat)
    (i : List Nat) :
    (mkTransferState s frm dst i).events
      = s.events ++ [.Transferred frm dst i] := rfl

theorem mkTransferState_ownedCount (s : ChocoState) (frm dst : Nat)
    (i : List Nat) :
    (mkTransferState s frm dst i).ownedCount
      = upd (upd s.ownedCount frm (s.ownedCount frm - 1)) dst
          (s.ownedCount dst + 1) := rfl

theorem mkTransferState_ownedIndex (s : ChocoState) (frm dst : Nat)
    (i : List Nat) :
    (mkTransferState s frm dst i).ownedIndex
      = upd
          (if s.ownedIndex i ≠ s.ownedCount frm - 1 then
            upd s.ownedIndex (s.ownedArray (frm, s.ownedCount frm - 1))
              (s.ownedIndex i)
          else s.ownedIndex)
          i (s.ownedCount dst) := rfl

theorem mkTransferState_ownedArray (s : ChocoState) (frm dst : Nat)
    (i : List Nat) :
    (mkTransferState s frm dst i).ownedArray
      = upd
          (upd
            (if s.ownedIndex i ≠ s.ownedCount frm - 1 then
              upd s.ownedArray (frm, s.ownedIndex i)
                (s.ownedArray (frm, s.ownedCount frm - 1))
            else s.ownedArray)
            (frm, s.ownedCount frm - 1) [])
          (dst, s.ownedCount dst) i := rfl

/-- Forward half of the per-owner invariant after a successful
`transfer_from` between distinct accounts. -/
theorem transfer_ownerInv_fwd (s : ChocoState) (frm dst : Nat)
    (cid : List Nat) (hO : OwnerInv s) (hne : frm ≠ dst)
    (hown : s.owners cid = some frm) :
    ∀ a i, i < (mkTransferState s frm dst cid).ownedCount a →
      (mkTransferState s frm dst cid).ownedIndex
        ((mkTransferState s frm dst cid).ownedArray (a, i)) = i ∧
      (mkTransferState s frm dst cid).owners
        ((mkTransferState s frm dst cid).ownedArray (a, i)) = some a := by
  obtain ⟨oFwd, oRev⟩ := hO
  obtain ⟨hposlt, harrpos⟩ := oRev cid frm hown
  have hcid : ∀ a i, i < s.ownedCount a → s.ownedArray (a, i) = cid →
      a = frm ∧ i = s.ownedIndex cid := by
    intro a i hi he
    have h1 := (oFwd a i hi).1
    have h2 := (oFwd a i hi).2
    rw [he] at h1 h2
    rw [hown] at h2
    exact ⟨(Option.some.inj h2).symm, h1.symm⟩
  intro a i hi
  rw [mkTransferState_ownedCount] at hi
  rw [mkTransferState_ownedArray, mkTransferState_ownedIndex,
    mkTransferState_owners]
  by_cases hpl : s.ownedIndex cid = s.ownedCount frm - 1
  · -- the transferred id sits at the last slot: no swap happens
    have hc : ¬ (s.ownedIndex cid ≠ s.ownedCount frm - 1) := by simp [hpl]
    simp only [if_neg hc]
    by_cases had : a = dst
    · subst had
      rw [upd_self] at hi
      by_cases him : i = s.ownedCount a
      · subst him
        simp [upd_self]
      · have hi2 : i < s.ownedCount a := by omega
        have k1 : ((a : Nat), i) ≠ (a, s.ownedCount a) := by simp [him]
        have k2 : ((a : Nat), i) ≠ (frm, s.ownedCount frm - 1) := by
          simp [Ne.symm hne]
        rw [upd_of_ne _ _ _ _ k1, upd_of_ne _ _ _ _ k2]
        have hx : s.ownedArray (a, i) ≠ cid := fun he =>
          (Ne.symm hne) (hcid a i hi2 he).1
        rw [upd_of_ne _ _ _ _ hx, upd_of_ne _ _ _ _ hx]
        exact oFwd a i hi2
    · rw [upd_of_ne _ _ _ _ had] at hi
      by_cases haf : a = frm
      · subst haf
        rw [upd_self] at hi
        have hi3 : i < s.ownedCount a := by omega
        have k1 : ((a : Nat), i) ≠ (dst, s.ownedCount dst) := by simp [had]
        have k2 : ((a : Nat), i) ≠ (a, s.ownedCount a - 1) := by
          simp
          omega
        rw [upd_of_ne _ _ _ _ k1, upd_of_ne _ _ _ _ k2]
        have hx : s.ownedArray (a, i) ≠ cid := fun he =>
          absurd ((hcid a i hi3 he).2.trans hpl) (by omega)
        rw [upd_of_ne _ _ _ _ hx, upd_of_ne _ _ _ _ hx]
        exact oFwd a i hi3
      · rw [upd_of_ne _ _ _ _ haf] at hi
        have k1 : ((a : Nat), i) ≠ (dst, s.ownedCount dst) := by simp [had]
        have k2 : ((a : Nat), i) ≠ (frm, s.ownedCount frm - 1) := by simp [haf]
        rw [upd_of_ne _ _ _ _ k1, upd_of_ne _ _ _ _ k2]
        have hx : s.ownedArray (a, i) ≠ cid := fun he =>
          haf (hcid a i hi he).1
        rw [upd_of_ne _ _ _ _ hx, upd_of_ne _ _ _ _ hx]
        exact oFwd a i hi
  · -- the transferred id is not last: the last id is swapped into its slot
    simp only [if_pos hpl]
    have hn1 : 1 ≤ s.ownedCount frm := by omega
    have hlast1 : s.ownedIndex (s.ownedArray (frm, s.ownedCount frm - 1))
        = s.ownedCount frm - 1 := (oFwd frm (s.ownedCount frm - 1) (by omega)).1
    have hlast2 : s.owners (s.ownedArray (frm, s.ownedCount frm - 1))
        = some frm := (oFwd frm (s.ownedCount frm - 1) (by omega)).2
    have hlastne : s.ownedArray (frm, s.ownedCount frm - 1) ≠ cid :=
      fun he => hpl (he ▸ hlast1)
    have hlastslot : ∀ a i, i < s.ownedCount a →
        s.ownedArray (a, i) = s.ownedArray (frm, s.ownedCount frm - 1) →
        a = frm ∧ i = s.ownedCount frm - 1 := by
      intro a i hi he
      have h1 := (oFwd a i hi).1
      have h2 := (oFwd a i hi).2
      rw [he] at h1 h2
      rw [hlast2] at h2
      rw [hlast1] at h1
      exact ⟨(Option.some.inj h2).symm, h1.symm⟩
    by_cases had : a = dst
    · subst had
      rw [upd_self] at hi
      by_cases him : i = s.ownedCount a
      · subst him
        simp [upd_self]
      · have hi2 : i < s.ownedCount a := by omega
        have k1 : ((a : Nat), i) ≠ (a, s.ownedCount a) := by simp [him]
        have k2 : ((a : Nat), i) ≠ (frm, s.ownedCount frm - 1) := by
          simp [Ne.symm hne]
        have k3 : ((a : Nat), i) ≠ (frm, s.ownedIndex cid) := by
          simp [Ne.symm hne]
        rw [upd_of_ne _ _ _ _ k1, upd_of_ne _ _ _ _ k2, upd_of_ne _ _ _ _ k3]
        have hx : s.ownedArray (a, i) ≠ cid := fun he =>
          (Ne.symm hne) (hcid a i hi2 he).1
        have hy : s.ownedArray (a, i)
            ≠ s.ownedArray (frm, s.ownedCount frm - 1) := fun he =>
          (Ne.symm hne) (hlastslot a i hi2 he).1
        rw [upd_of_ne _ _ _ _ hx, upd_of_ne _ _ _ _ hy, upd_of_ne _ _ _ _ hx]
        exact oFwd a i hi2
    · rw [upd_of_ne _ _ _ _ had] at hi
      by_cases haf : a = frm
      · subst haf
        rw [upd_self] at hi
        by_cases hip : i = s.ownedIndex cid
        · subst hip
          have k1 : ((a : Nat), s.ownedIndex cid) ≠ (dst, s.ownedCount dst) :=
            by simp [had]
          have k2 : ((a : Nat), s.ownedIndex cid) ≠ (a, s.ownedCount a - 1) :=
            by simp [hpl]
          rw [upd_of_ne _ _ _ _ k1, upd_of_ne _ _ _ _ k2, upd_self,
            upd_of_ne _ _ _ _ hlastne, upd_self, upd_of_ne _ _ _ _ hlastne]
          exact ⟨rfl, hlast2⟩
        · have hi3 : i < s.ownedCount a := by omega
          have k1 : ((a : Nat), i) ≠ (dst, s.ownedCount dst) := by simp [had]
          have k2 : ((a : Nat), i) ≠ (a, s.ownedCount a - 1) := by
            simp
            omega
          have k3 : ((a : Nat), i) ≠ (a, s.ownedIndex cid) := by simp [hip]
          rw [upd_of_ne _ _ _ _ k1, upd_of_ne _ _ _ _ k2, upd_of_ne _ _ _ _ k3]
          have hx : s.ownedArray (a, i) ≠ cid := fun he =>
            hip (hcid a i hi3 he).2
          have hy : s.ownedArray (a, i)
              ≠ s.ownedArray (a, s.ownedCount a - 1) := fun he =>
            absurd (hlastslot a i hi3 he).2 (by omega)
          rw [upd_of_ne _ _ _ _ hx, upd_of_ne _ _ _ _ hy, upd_of_ne _ _ _ _ hx]
          exact oFwd a i hi3
      · rw [upd_of_ne _ _ _ _ haf] at hi
        have k1 : ((a : Nat), i) ≠ (dst, s.ownedCount dst) := by simp [had]
        have k2 : ((a : Nat), i) ≠ (frm, s.ownedCount frm - 1) := by simp [haf]
        have k3 : ((a : Nat), i) ≠ (frm, s.ownedIndex cid) := by simp [haf]
        rw [upd_of_ne _ _ _ _ k1, upd_of_ne _ _ _ _ k2, upd_of_ne _ _ _ _ k3]
        have hx : s.ownedArray (a, i) ≠ cid := fun he => haf (hcid a i hi he).1
        have hy : s.ownedArray (a, i)
            ≠ s.ownedArray (frm, s.ownedCount frm - 1) := fun he =>
          haf (hlastslot a i hi he).1
        rw [upd_of_ne _ _ _ _ hx, upd_of_ne _ _ _ _ hy, upd_of_ne _ _ _ _ hx]
        exact oFwd a i hi

/-- Reverse half of the per-owner invariant after a successful
`transfer_from` between distinct accounts. -/
theorem transfer_ownerInv_rev (s : ChocoState) (frm dst : Nat)
    (cid : List Nat) (hO : OwnerInv s) (hne : frm ≠ dst)
    (hown : s.owners cid = some frm) :
    ∀ h a, (mkTransferState s frm dst cid).owners h = some a →
      (mkTransferState s frm dst cid).ownedIndex h
        < (mkTransferState s frm dst cid).ownedCount a ∧
      (mkTransferState s frm dst cid).ownedArray
        (a, (mkTransferState s frm dst cid).ownedIndex h) = h := by
  obtain ⟨oFwd, oRev⟩ := hO
  obtain ⟨hposlt, harrpos⟩ := oRev cid frm hown
  intro h a hOwnT
  rw [mkTransferState_owners] at hOwnT
  rw [mkTransferState_ownedCount, mkTransferState_ownedIndex,
    mkTransferState_ownedArray]
  by_cases hpl : s.ownedIndex cid = s.ownedCount frm - 1
  · have hc : ¬ (s.ownedIndex cid ≠ s.ownedCount frm - 1) := by simp [hpl]
    simp only [if_neg hc]
    by_cases hh : h = cid
    · subst hh
      rw [upd_self] at hOwnT
      have ha : a = dst := (Option.some.inj hOwnT).symm
      subst ha
      simp [upd_self]
    · rw [upd_of_ne _ _ _ _ hh] at hOwnT
      obtain ⟨hidx, harr⟩ := oRev h a hOwnT
      rw [upd_of_ne _ _ _ _ hh]
      by_cases haf : a = frm
      · subst haf
        have harrlast : s.ownedArray (a, s.ownedCount a - 1) = cid := by
          rw [← hpl]
          exact harrpos
        have hidxne : s.ownedIndex h ≠ s.ownedCount a - 1 := by
          intro he
          rw [he] at harr
          rw [harrlast] at harr
          exact hh harr.symm
        have hcnt : upd (upd s.ownedCount a (s.ownedCount a - 1)) dst
            (s.ownedCount dst + 1) a = s.ownedCount a - 1 := by
          rw [upd_of_ne _ _ _ _ hne, upd_self]
        rw [hcnt]
        refine ⟨by omega, ?_⟩
        have k1 : ((a : Nat), s.ownedIndex h) ≠ (dst, s.ownedCount dst) := by
          simp [hne]
        have k2 : ((a : Nat), s.ownedIndex h) ≠ (a, s.ownedCount a - 1) := by
          simp [hidxne]
        rw [upd_of_ne _ _ _ _ k1, upd_of_ne _ _ _ _ k2]
        exact harr
      · by_cases had : a = dst
        · subst had
          rw [upd_self]
          refine ⟨by omega, ?_⟩
          have k1 : ((a : Nat), s.ownedIndex h) ≠ (a, s.ownedCount a) := by
            simp
            omega
          have k2 : ((a : Nat), s.ownedIndex h) ≠ (frm, s.ownedCount frm - 1)
              := by simp [Ne.symm hne]
          rw [upd_of_ne _ _ _ _ k1, upd_of_ne _ _ _ _ k2]
          exact harr
        · rw [upd_of_ne _ _ _ _ had, upd_of_ne _ _ _ _ haf]
          refine ⟨hidx, ?_⟩
          have k1 : ((a : Nat), s.ownedIndex h) ≠ (dst, s.ownedCount dst) := by
            simp [had]
          have k2 : ((a : Nat), s.ownedIndex h) ≠ (frm, s.ownedCount frm - 1)
              := by simp [haf]
          rw [upd_of_ne _ _ _ _ k1, upd_of_ne _ _ _ _ k2]
          exact harr
  · simp only [if_pos hpl]
    have hn1 : 1 ≤ s.ownedCount frm := by omega
    have hlast1 : s.ownedIndex (s.ownedArray (frm, s.ownedCount frm - 1))
        = s.ownedCount frm - 1 := (oFwd frm (s.ownedCount frm - 1) (by omega)).1
    have hlast2 : s.owners (s.ownedArray (frm, s.ownedCount frm - 1))
        = some frm := (oFwd frm (s.ownedCount frm - 1) (by omega)).2
    have hlastne : s.ownedArray (frm, s.ownedCount frm - 1) ≠ cid :=
      fun he => hpl (he ▸ hlast1)
    by_cases hh : h = cid
    · subst hh
      rw [upd_self] at hOwnT
      have ha : a = dst := (Option.some.inj hOwnT).symm
      subst ha
      simp [upd_self]
    · rw [upd_of_ne _ _ _ _ hh] at hOwnT
      obtain ⟨hidx, harr⟩ := oRev h a hOwnT
      by_cases hl : h = s.ownedArray (frm, s.ownedCount frm - 1)
      · have ha : a = frm := by
          rw [hl, hlast2] at hOwnT
          exact (Option.some.inj hOwnT).symm
        subst ha
        have hIdxEq : upd
            (upd s.ownedIndex (s.ownedArray (a, s.ownedCount a - 1))
              (s.ownedIndex cid)) cid (s.ownedCount dst) h
            = s.ownedIndex cid := by
          rw [upd_of_ne _ _ _ _ hh, hl, upd_self]
        rw [hIdxEq]
        have hcnt : upd (upd s.ownedCount a (s.ownedCount a - 1)) dst
            (s.ownedCount dst + 1) a = s.ownedCount a - 1 := by
          rw [upd_of_ne _ _ _ _ hne, upd_self]
        rw [hcnt]
        refine ⟨by omega, ?_⟩
        have k1 : ((a : Nat), s.ownedIndex cid) ≠ (dst, s.ownedCount dst) := by
          simp [hne]
        have k2 : ((a : Nat), s.ownedIndex cid) ≠ (a, s.ownedCount a - 1) := by
          simp [hpl]
        rw [upd_of_ne _ _ _ _ k1, upd_of_ne _ _ _ _ k2, upd_self]
        exact hl.symm
      · have hIdxEq : upd
            (upd s.ownedIndex (s.ownedArray (frm, s.ownedCount frm - 1))
              (s.ownedIndex cid)) cid (s.ownedCount dst) h
            = s.ownedIndex h := by
          rw [upd_of_ne _ _ _ _ hh, upd_of_ne _ _ _ _ hl]
        rw [hIdxEq]
        by_cases haf : a = frm
        · subst haf
          have hidxne1 : s.ownedIndex h ≠ s.ownedIndex cid := by
            intro he
            rw [he, harrpos] at harr
            exact hh harr.symm
          have hidxne2 : s.ownedIndex h ≠ s.ownedCount a - 1 := by
            intro he
            rw [he] at harr
            exact hl harr.symm
          have hcnt : upd (upd s.ownedCount a (s.ownedCount a - 1)) dst
              (s.ownedCount dst + 1) a = s.ownedCount a - 1 := by
            rw [upd_of_ne _ _ _ _ hne, upd_self]
          rw [hcnt]
          refine ⟨by omega, ?_⟩
          have k1 : ((a : Nat), s.ownedIndex h) ≠ (dst, s.ownedCount dst) := by
            simp [hne]
          have k2 : ((a : Nat), s.ownedIndex h) ≠ (a, s.ownedCount a - 1) := by
            simp [hidxne2]
          have k3 : ((a : Nat), s.ownedIndex h) ≠ (a, s.ownedIndex cid) := by
            simp [hidxne1]
          rw [upd_of_ne _ _ _ _ k1, upd_of_ne _ _ _ _ k2, upd_of_ne _ _ _ _ k3]
          exact harr
        · by_cases had : a = dst
          · subst had
            rw [upd_self]
            refine ⟨by omega, ?_⟩
            have k1 : ((a : Nat), s.ownedIndex h) ≠ (a, s.ownedCount a) := by
              simp
              omega
            have k2 : ((a : Nat), s.ownedIndex h)
                ≠ (frm, s.ownedCount frm - 1) := by simp [Ne.symm hne]
            have k3 : ((a : Nat), s.ownedIndex h) ≠ (frm, s.ownedIndex cid) :=
              by simp [Ne.symm hne]
            rw [upd_of_ne _ _ _ _ k1, upd_of_ne _ _ _ _ k2,
              upd_of_ne _ _ _ _ k3]
            exact harr
          · rw [upd_of_ne _ _ _ _ had, upd_of_ne _ _ _ _ haf]
            refine ⟨hidx, ?_⟩
            have k1 : ((a : Nat), s.ownedIndex h) ≠ (dst, s.ownedCount dst) :=
              by simp [had]
            have k2 : ((a : Nat), s.ownedIndex h)
                ≠ (frm, s.ownedCount frm - 1) := by simp [haf]
            have k3 : ((a : Nat), s.ownedIndex h) ≠ (frm, s.ownedIndex cid) :=
              by simp [haf]
            rw [upd_of_ne _ _ _ _ k1, upd_of_ne _ _ _ _ k2,
              upd_of_ne _ _ _ _ k3]
            exact harr

/-- A successful `transfer_from` between distinct accounts preserves the
full registry invariant. -/
theorem transfer_pres (s : ChocoState) (frm dst : Nat) (cid : List Nat)
    (hInv : RegistryInv s) (hne : frm ≠ dst)
    (hown : s.owners cid = some frm) :
    RegistryInv (mkTransferState s frm dst cid) := by
  obtain ⟨hG, hO, hiff⟩ := hInv
  refine ⟨hG, ⟨transfer_ownerInv_fwd s frm dst cid hO hne hown,
    transfer_ownerInv_rev s frm dst cid hO hne hown⟩, ?_⟩
  intro h
  rw [mkTransferState_chocobos, mkTransferState_owners]
  by_cases hh : h = cid
  · rw [hh, upd_self]
    have hex : (s.chocobos cid).isSome := (hiff cid).mpr (by rw [hown]; rfl)
    simp [hex]
  · rw [upd_of_ne _ _ _ _ hh]
    exact hiff h

/-- Overwriting an existing id in the entity map preserves the registry
invariant (used for set_price, race and the price reset of buy). -/
theorem upd_chocobos_pres (s : ChocoState) (cid : List Nat) (c : Chocobo)
    (hInv : RegistryInv s) (hex : (s.chocobos cid).isSome) :
    RegistryInv { s with chocobos := upd s.chocobos cid (some c) } := by
  obtain ⟨⟨gFwd, gRev⟩, hO, hiff⟩ := hInv
  refine ⟨⟨?_, ?_⟩, hO, ?_⟩
  · intro i hi
    have hi2 : i < s.allCount := hi
    refine ⟨(gFwd i hi2).1, ?_⟩
    show (upd s.chocobos cid (some c) (s.allArray i)).isSome = true
    by_cases hh : s.allArray i = cid
    · rw [hh, upd_self]
      rfl
    · rw [upd_of_ne _ _ _ _ hh]
      exact (gFwd i hi2).2
  · intro h hsome
    have hsome2 : (upd s.chocobos cid (some c) h).isSome = true := hsome
    show s.allIndex h < s.allCount ∧ s.allArray (s.allIndex h) = h
    by_cases hh : h = cid
    · rw [hh]
      exact gRev cid hex
    · rw [upd_of_ne _ _ _ _ hh] at hsome2
      exact gRev h hsome2
  · intro h
    show (upd s.chocobos cid (some c) h).isSome = true
      ↔ (s.owners h).isSome = true
    by_cases hh : h = cid
    · rw [hh, upd_self]
      have hx := (hiff cid).mp hex
      simp [hx]
    · rw [upd_of_ne _ _ _ _ hh]
      exact hiff h

/-- `create_chocobo` preserves the registry invariant. -/
theorem create_pres (s : ChocoState) (sender : Nat) (rh : List Nat)
    (s2 : ChocoState) (hInv : RegistryInv s)
    (h : create_chocobo s sender rh = (s2, none)) : RegistryInv s2 := by
  unfold create_chocobo at h
  cases hmr : mint s sender rh ⟨rh, rh, 0, 0, 0, 0⟩ with
  | mk s1 oe =>
    cases oe with
    | some e => simp [hmr] at h
    | none =>
      simp only [hmr] at h
      have h2 : (mint s sender rh ⟨rh, rh, 0, 0, 0, 0⟩).2 = none := by
        rw [hmr]
      obtain ⟨hfresh, heq⟩ := mint_ok_eq s sender rh _ h2
      rw [hmr] at heq
      have hs1 : RegistryInv s1 := by
        rw [show s1 = mkMintState s sender rh ⟨rh, rh, 0, 0, 0, 0⟩ from heq]
        exact mint_pres s sender rh _ hInv hfresh
      have hs2 : ({ s1 with nonce := (s1.nonce + 1) % U64LIMIT }, none)
          = ((s2 : ChocoState), (none : Option ChocoErr)) := h
      rw [← (Prod.mk.injEq _ _ _ _).mp hs2 |>.1]
      exact hs1

/-- First components of equal pairs are equal. -/
theorem pair_eq_fst {A B : Type} {a c : A} {b d : B} (h : (a, b) = (c, d)) :
    a = c :=
  ((Prod.mk.injEq _ _ _ _).mp h).1

/-- The registry invariant only looks at the registry fields. -/
theorem registryInv_congr (s t : ChocoState)
    (hc : s.chocobos = t.chocobos) (ho : s.owners = t.owners)
    (haa : s.allArray = t.allArray) (hac : s.allCount = t.allCount)
    (hai : s.allIndex = t.allIndex) (hoa : s.ownedArray = t.ownedArray)
    (hoc : s.ownedCount = t.ownedCount) (hoi : s.ownedIndex = t.ownedIndex)
    (h : RegistryInv s) : RegistryInv t := by
  unfold RegistryInv GlobalInv OwnerInv at *
  rw [← hc, ← ho, ← haa, ← hac, ← hai, ← hoa, ← hoc, ← hoi]
  exact h

/-- The currency collaborator only touches balances, so it preserves the
registry invariant whether it succeeds or fails. -/
theorem currency_transfer_inv (s : ChocoState) (a b amt : Nat)
    (hInv : RegistryInv s) :
    RegistryInv ((currency_transfer s a b amt).1) := by
  unfold currency_transfer
  by_cases hf : s.balances a < amt
  · simp only [if_pos hf]
    exact hInv
  · simp only [if_neg hf]
    exact hInv

theorem currency_transfer_chocobos (s : ChocoState) (a b amt : Nat) :
    ((currency_transfer s a b amt).1).chocobos = s.chocobos := by
  unfold currency_transfer
  by_cases hf : s.balances a < amt
  · simp only [if_pos hf]
  · simp only [if_neg hf]

/-- `set_price` preserves the registry invariant. -/
theorem set_price_pres (s : ChocoState) (sender : Nat) (cid : List Nat)
    (p : Nat) (s2 : ChocoState) (hInv : RegistryInv s)
    (h : set_price s sender cid p = (s2, none)) : RegistryInv s2 := by
  unfold set_price at h
  by_cases h1 : (s.chocobos cid).isSome
  · rw [if_pos h1] at h
    cases ho : s.owners cid with
    | none => simp [ho] at h
    | some owner =>
      simp only [ho] at h
      by_cases h2 : owner = sender
      · rw [if_pos h2] at h
        have hs2 := pair_eq_fst h
        rw [← hs2]
        exact registryInv_congr _ _ rfl rfl rfl rfl rfl rfl rfl rfl
          (upd_chocobos_pres s cid
            { choco_by_id s cid with price := p } hInv h1)
      · simp [h2] at h
  · simp [h1] at h

/-- The `transfer` handler with a destination different from the sender
preserves the registry invariant. -/
theorem transfer_handler_pres (s : ChocoState) (sender dst : Nat)
    (cid : List Nat) (s2 : ChocoState) (hInv : RegistryInv s)
    (hnd : sender ≠ dst) (h : transfer s sender dst cid = (s2, none)) :
    RegistryInv s2 := by
  unfold transfer at h
  cases ho : s.owners cid with
  | none => simp [ho] at h
  | some owner =>
    simp only [ho] at h
    by_cases h2 : owner = sender
    · rw [if_pos h2] at h
      have hok := transfer_from_ok s sender dst cid (by rw [h])
      have hs2 : s2 = mkTransferState s sender dst cid := by
        rw [← hok.2.2.2, h]
      rw [hs2]
      exact transfer_pres s sender dst cid hInv hnd hok.1
    · simp [h2] at h

/-- The updated first contender record written by `race`. -/
def raceUpd1 (s : ChocoState) (id1 id2 : List Nat) : Chocobo :=
  { choco_by_id s id1 with
    races := ((choco_by_id s id1).races + 1) % U64LIMIT,
    wins := if raceOutcome (choco_by_id s id1).dna (choco_by_id s id2).dna ≥ 0
      then ((choco_by_id s id1).wins + 1) % U64LIMIT
      else (choco_by_id s id1).wins }

/-- The updated second contender record written by `race`. -/
def raceUpd2 (s : ChocoState) (id1 id2 : List Nat) : Chocobo :=
  { choco_by_id s id2 with
    races := ((choco_by_id s id2).races + 1) % U64LIMIT,
    wins := if raceOutcome (choco_by_id s id1).dna (choco_by_id s id2).dna ≥ 0
      then (choco_by_id s id2).wins
      else ((choco_by_id s id2).wins + 1) % U64LIMIT }

/-- `race` preserves the registry invariant. -/
theorem race_pres (s : ChocoState) (sender : Nat) (id1 id2 : List Nat)
    (s2 : ChocoState) (hInv : RegistryInv s)
    (h : race s sender id1 id2 = (s2, none)) : RegistryInv s2 := by
  unfold race at h
  by_cases h1 : (s.chocobos id1).isSome
  · by_cases h2 : (s.chocobos id2).isSome
    · rw [if_pos h1, if_pos h2] at h
      have hs2 : ({ s with
          chocobos := upd (upd s.chocobos id1 (some (raceUpd1 s id1 id2)))
            id2 (some (raceUpd2 s id1 id2)),
          nonce := (s.nonce + 1) % U64LIMIT,
          events := s.events ++ [.Raced sender id1 id2
            (if raceOutcome (choco_by_id s id1).dna (choco_by_id s id2).dna
              ≥ 0 then id1 else id2)] } : ChocoState) = s2 := pair_eq_fst h
      rw [← hs2]
      have ht1 := upd_chocobos_pres s id1 (raceUpd1 s id1 id2) hInv h1
      have hex2 : ((upd s.chocobos id1 (some (raceUpd1 s id1 id2))) id2).isSome
          := by
        by_cases he : id2 = id1
        · rw [he, upd_self]
          rfl
        · rw [upd_of_ne _ _ _ _ he]
          exact h2
      have ht2 := upd_chocobos_pres
        { s with chocobos := upd s.chocobos id1 (some (raceUpd1 s id1 id2)) }
        id2 (raceUpd2 s id1 id2) ht1 hex2
      exact registryInv_congr _ _ rfl rfl rfl rfl rfl rfl rfl rfl ht2
    · simp [h1, h2] at h
  · simp [h1] at h

/-- `breed_chocobo` preserves the registry invariant. -/
theorem breed_pres (s : ChocoState) (sender : Nat) (sid mid rh : List Nat)
    (s2 : ChocoState) (hInv : RegistryInv s)
    (h : breed_chocobo s sender sid mid rh = (s2, none)) : RegistryInv s2 := by
  unfold breed_chocobo at h
  by_cases h1 : (s.chocobos sid).isSome
  · by_cases h2 : (s.chocobos mid).isSome
    · rw [if_pos h1, if_pos h2] at h
      cases hmr : mint s sender rh
          ⟨rh, crossover (choco_by_id s sid).dna (choco_by_id s mid).dna rh,
           0, (max (choco_by_id s sid).gen (choco_by_id s mid).gen + 1)
             % U64LIMIT, 0, 0⟩ with
      | mk s1 oe =>
        cases oe with
        | some e => simp [hmr] at h
        | none =>
          simp only [hmr] at h
          have hm2 : (mint s sender rh
              ⟨rh, crossover (choco_by_id s sid).dna (choco_by_id s mid).dna
                rh, 0,
               (max (choco_by_id s sid).gen (choco_by_id s mid).gen + 1)
                 % U64LIMIT, 0, 0⟩).2 = none := by
            rw [hmr]
          obtain ⟨hfresh, heq⟩ := mint_ok_eq s sender rh _ hm2
          rw [hmr] at heq
          have heq2 : s1 = mkMintState s sender rh
              ⟨rh, crossover (choco_by_id s sid).dna (choco_by_id s mid).dna
                rh, 0,
               (max (choco_by_id s sid).gen (choco_by_id s mid).gen + 1)
                 % U64LIMIT, 0, 0⟩ := heq
          have hs1 : RegistryInv s1 := by
            rw [heq2]
            exact mint_pres s sender rh _ hInv hfresh
          have hs2 := pair_eq_fst h
          rw [← hs2]
          exact registryInv_congr _ _ rfl rfl rfl rfl rfl rfl rfl rfl hs1
    · simp [h1, h2] at h
  · simp [h1] at h

/-- `buy_chocobo` preserves the registry invariant. -/
theorem buy_pres (s : ChocoState) (sender : Nat) (cid : List Nat) (mp : Nat)
    (s2 : ChocoState) (hInv : RegistryInv s)
    (h : buy_chocobo s sender cid mp = .ok s2) : RegistryInv s2 := by
  unfold buy_chocobo at h
  by_cases h1 : (s.chocobos cid).isSome
  · rw [if_pos h1] at h
    cases ho : s.owners cid with
    | none => simp [ho] at h
    | some owner =>
      simp only [ho] at h
      by_cases h2 : owner = sender
      · simp [h2] at h
      · rw [if_neg h2] at h
        by_cases h3 : (choco_by_id s cid).price = 0
        · simp [h3] at h
        · rw [if_neg h3] at h
          by_cases h4 : mp < (choco_by_id s cid).price
          · simp [h4] at h
          · rw [if_neg h4] at h
            cases hc : currency_transfer s sender owner
                (choco_by_id s cid).price with
            | mk s1 oe1 =>
              cases oe1 with
              | some e => simp [hc] at h
              | none =>
                simp only [hc] at h
                cases ht : transfer_from s1 owner sender cid with
                | mk s1t oe2 =>
                  cases oe2 with
                  | some e2 => simp [ht] at h
                  | none =>
                    simp only [ht] at h
                    have hInv1 : RegistryInv s1 := by
                      have hx := currency_transfer_inv s sender owner
                        (choco_by_id s cid).price hInv
                      rw [hc] at hx
                      exact hx
                    have hok := transfer_from_ok s1 owner sender cid
                      (by rw [ht])
                    have hs1t : s1t = mkTransferState s1 owner sender cid := by
                      have hx := hok.2.2.2
                      rw [ht] at hx
                      exact hx
                    have hInv1t : RegistryInv s1t := by
                      rw [hs1t]
                      exact transfer_pres s1 owner sender cid hInv1 h2 hok.1
                    have hex : (s1t.chocobos cid).isSome := by
                      rw [hs1t, mkTransferState_chocobos]
                      have hcf := currency_transfer_chocobos s sender owner
                        (choco_by_id s cid).price
                      rw [hc] at hcf
                      have hcf2 : s1.chocobos = s.chocobos := hcf
                      rw [hcf2]
                      exact h1
                    have hmain := upd_chocobos_pres s1t cid
                      { choco_by_id s cid with price := 0 } hInv1t hex
                    have hs2 : { s1t with
                        chocobos := upd s1t.chocobos cid
                          (some { choco_by_id s cid with price := 0 }),
                        events := s1t.events ++
                          [.Bought sender owner cid
                            (choco_by_id s cid).price] } = s2 := by
                      cases h
                      rfl
                    rw [← hs2]
                    exact registryInv_congr _ _ rfl rfl rfl rfl rfl rfl rfl rfl
                      hmain
  · simp [h1] at h

/-- Swap-delete order-independence: after a successful `transfer_from`
between distinct accounts, the set of ids enumerated for the source
account is the old set minus the transferred id. -/
theorem transfer_ownsAt (s : ChocoState) (frm dst : Nat) (cid : List Nat)
    (hInv : RegistryInv s) (hne : frm ≠ dst)
    (hown : s.owners cid = some frm) :
    ∀ h, ownsAt (mkTransferState s frm dst cid) frm h
      ↔ (ownsAt s frm h ∧ h ≠ cid) := by
  obtain ⟨-, ⟨oFwd, oRev⟩, -⟩ := hInv
  obtain ⟨hposlt, harrpos⟩ := oRev cid frm hown
  have hcnt : (mkTransferState s frm dst cid).ownedCount frm
      = s.ownedCount frm - 1 := by
    rw [mkTransferState_ownedCount, upd_of_ne _ _ _ _ hne, upd_self]
  intro h
  constructor
  · rintro ⟨i, hi, he⟩
    rw [hcnt] at hi
    rw [mkTransferState_ownedArray] at he
    by_cases hpl : s.ownedIndex cid = s.ownedCount frm - 1
    · have hc : ¬ (s.ownedIndex cid ≠ s.ownedCount frm - 1) := by simp [hpl]
      rw [if_neg hc] at he
      have k1 : ((frm : Nat), i) ≠ (dst, s.ownedCount dst) := by simp [hne]
      have k2 : ((frm : Nat), i) ≠ (frm, s.ownedCount frm - 1) := by
        simp
        omega
      rw [upd_of_ne _ _ _ _ k1, upd_of_ne _ _ _ _ k2] at he
      have hilt : i < s.ownedCount frm := by omega
      refine ⟨⟨i, hilt, he⟩, ?_⟩
      intro hcid2
      rw [hcid2] at he
      have := (oFwd frm i hilt).1
      rw [he] at this
      omega
    · rw [if_pos hpl] at he
      have k1 : ((frm : Nat), i) ≠ (dst, s.ownedCount dst) := by simp [hne]
      have k2 : ((frm : Nat), i) ≠ (frm, s.ownedCount frm - 1) := by
        simp
        omega
      rw [upd_of_ne _ _ _ _ k1, upd_of_ne _ _ _ _ k2] at he
      by_cases hip : i = s.ownedIndex cid
      · rw [hip, upd_self] at he
        have hlast1 : s.ownedIndex (s.ownedArray (frm, s.ownedCount frm - 1))
            = s.ownedCount frm - 1 :=
          (oFwd frm (s.ownedCount frm - 1) (by omega)).1
        refine ⟨⟨s.ownedCount frm - 1, by omega, he⟩, ?_⟩
        intro hcid2
        rw [hcid2] at he
        rw [he] at hlast1
        exact hpl hlast1
      · have k3 : ((frm : Nat), i) ≠ (frm, s.ownedIndex cid) := by simp [hip]
        rw [upd_of_ne _ _ _ _ k3] at he
        have hilt : i < s.ownedCount frm := by omega
        refine ⟨⟨i, hilt, he⟩, ?_⟩
        intro hcid2
        rw [hcid2] at he
        have := (oFwd frm i hilt).1
        rw [he] at this
        exact hip this.symm
  · rintro ⟨⟨j, hj, he⟩, hne2⟩
    unfold ownsAt
    rw [hcnt, mkTransferState_ownedArray]
    have hjpos : j ≠ s.ownedIndex cid := by
      intro hq
      rw [hq, harrpos] at he
      exact hne2 he.symm
    by_cases hpl : s.ownedIndex cid = s.ownedCount frm - 1
    · have hc : ¬ (s.ownedIndex cid ≠ s.ownedCount frm - 1) := by simp [hpl]
      simp only [if_neg hc]
      have hjlt : j < s.ownedCount frm - 1 := by omega
      refine ⟨j, hjlt, ?_⟩
      have k1 : ((frm : Nat), j) ≠ (dst, s.ownedCount dst) := by simp [hne]
      have k2 : ((frm : Nat), j) ≠ (frm, s.ownedCount frm - 1) := by
        simp
        omega
      rw [upd_of_ne _ _ _ _ k1, upd_of_ne _ _ _ _ k2]
      exact he
    · simp only [if_pos hpl]
      by_cases hjl : j = s.ownedCount frm - 1
      · refine ⟨s.ownedIndex cid, by omega, ?_⟩
        have k1 : ((frm : Nat), s.ownedIndex cid) ≠ (dst, s.ownedCount dst)
            := by simp [hne]
        have k2 : ((frm : Nat), s.ownedIndex cid)
            ≠ (frm, s.ownedCount frm - 1) := by simp [hpl]
        rw [upd_of_ne _ _ _ _ k1, upd_of_ne _ _ _ _ k2, upd_self]
        rw [← hjl]
        exact he
      · refine ⟨j, by omega, ?_⟩
        have k1 : ((frm : Nat), j) ≠ (dst, s.ownedCount dst) := by simp [hne]
        have k2 : ((frm : Nat), j) ≠ (frm, s.ownedCount frm - 1) := by
          simp [hjl]
        have k3 : ((frm : Nat), j) ≠ (frm, s.ownedIndex cid) := by simp [hjpos]
        rw [upd_of_ne _ _ _ _ k1, upd_of_ne _ _ _ _ k2, upd_of_ne _ _ _ _ k3]
        exact he

/-! ## Mint sequences (no id minted twice) -/

/-- Number of successful mints of the id `i` along a sequence of mint
requests applied in order. -/
def mintSuccesses (s : ChocoState) (ops : List (Nat × List Nat × Chocobo))
    (i : List Nat) : Nat :=
  match ops with
  | [] => 0
  | op :: rest =>
    (if op.2.1 = i ∧ (mint s op.1 op.2.1 op.2.2).2 = none then 1 else 0) +
    mintSuccesses (mint s op.1 op.2.1 op.2.2).1 rest i

/-- Minting never removes an entity from the registry. -/
theorem mint_keeps_some (s : ChocoState) (dst : Nat) (cid h : List Nat)
    (c : Chocobo) (hs : (s.chocobos h).isSome) :
    ((mint s dst cid c).1.chocobos h).isSome := by
  unfold mint
  by_cases h1 : (s.chocobos cid).isSome
  · rw [if_pos h1]
    exact hs
  · rw [if_neg h1]
    cases h2 : checked_add (s.ownedCount dst) 1 with
    | none => exact hs
    | some k =>
      cases h3 : checked_add s.allCount 1 with
      | none => exact hs
      | some k2 =>
        show ((mkMintState s dst cid c).chocobos h).isSome
        rw [mkMintState_chocobos]
        by_cases hh : h = cid
        · rw [hh, upd_self]
          rfl
        · rw [upd_of_ne _ _ _ _ hh]
          exact hs

/-- Once an id exists, no later mint of it in a sequence can succeed. -/
theorem mintSuccesses_of_some :
    ∀ (ops : List (Nat × List Nat × Chocobo)) (s : ChocoState) (i : List Nat),
    (s.chocobos i).isSome → mintSuccesses s ops i = 0 := by
  intro ops
  induction ops with
  | nil =>
    intro s i h
    rfl
  | cons op rest ih =>
    intro s i h
    unfold mintSuccesses
    have hz : ¬ (op.2.1 = i ∧ (mint s op.1 op.2.1 op.2.2).2 = none) := by
      rintro ⟨he, hok⟩
      have hx := (mint_ok_eq s op.1 op.2.1 op.2.2 hok).1
      rw [he] at hx
      exact hx h
    rw [if_neg hz, ih _ i (mint_keeps_some s op.1 op.2.1 i op.2.2 h)]

/-- Along any sequence of mints, a given id is minted successfully at
most once. -/
theorem mintSuccesses_le_one :
    ∀ (ops : List (Nat × List Nat × Chocobo)) (s : ChocoState) (i : List Nat),
    mintSuccesses s ops i ≤ 1 := by
  intro ops
  induction ops with
  | nil =>
    intro s i
    exact Nat.zero_le 1
  | cons op rest ih =>
    intro s i
    unfold mintSuccesses
    by_cases hc : op.2.1 = i ∧ (mint s op.1 op.2.1 op.2.2).2 = none
    · rw [if_pos hc]
      have hsome : ((mint s op.1 op.2.1 op.2.2).1.chocobos i).isSome := by
        obtain ⟨he, hok⟩ := hc
        have heq := (mint_ok_eq s op.1 op.2.1 op.2.2 hok).2
        rw [heq, mkMintState_chocobos, he, upd_self]
        rfl
      rw [mintSuccesses_of_some rest _ i hsome]
    · rw [if_neg hc]
      have hx := ih (mint s op.1 op.2.1 op.2.2).1 i
      omega

/-! ## Crossover characterization -/

theorem set_getD_ne : ∀ (l : List Nat) (k j v : Nat), j ≠ k →
    (l.set k v).getD j 0 = l.getD j 0 := by
  intro l
  induction l with
  | nil =>
    intro k j v h
    rfl
  | cons a t ih =>
    intro k j v h
    cases k with
    | zero =>
      cases j with
      | zero => exact absurd rfl h
      | succ j2 => rfl
    | succ k2 =>
      cases j with
      | zero => rfl
      | succ j2 =>
        show (t.set k2 v).getD j2 0 = t.getD j2 0
        exact ih k2 j2 v (fun q => h (by rw [q]))

theorem set_getD_self : ∀ (l : List Nat) (k v : Nat), k < l.length →
    (l.set k v).getD k 0 = v := by
  intro l
  induction l with
  | nil =>
    intro k v h
    exact absurd h (by simp)
  | cons a t ih =>
    intro k v h
    cases k with
    | zero => rfl
    | succ k2 => exact ih k2 v (by simpa using h)

theorem crossoverLoop_length : ∀ (zs : List (Nat × Nat)) (child : List Nat)
    (k : Nat), (crossoverLoop child k zs).length = child.length := by
  intro zs
  induction zs with
  | nil =>
    intro child k
    rfl
  | cons p rest ih =>
    intro child k
    cases p with
    | mk m r =>
      unfold crossoverLoop
      rw [ih]
      by_cases he : r % 2 = 0
      · rw [if_pos he, List.length_set]
      · rw [if_neg he]

theorem crossoverLoop_getD_lt : ∀ (zs : List (Nat × Nat)) (child : List Nat)
    (k j : Nat), j < k → (crossoverLoop child k zs).getD j 0
      = child.getD j 0 := by
  intro zs
  induction zs with
  | nil =>
    intro child k j h
    rfl
  | cons p rest ih =>
    intro child k j h
    cases p with
    | mk m r =>
      unfold crossoverLoop
      rw [ih _ (k + 1) j (by omega)]
      by_cases he : r % 2 = 0
      · rw [if_pos he]
        exact set_getD_ne child k j m (by omega)
      · rw [if_neg he]

theorem crossoverLoop_getD : ∀ (zs : List (Nat × Nat)) (child : List Nat)
    (k j : Nat), k ≤ j → j < k + zs.length → j < child.length →
    (crossoverLoop child k zs).getD j 0 =
      (if (zs.getD (j - k) (0, 0)).2 % 2 = 0 then (zs.getD (j - k) (0, 0)).1
       else child.getD j 0) := by
  intro zs
  induction zs with
  | nil =>
    intro child k j h1 h2 h3
    exact absurd h2 (by simp; omega)
  | cons p rest ih =>
    intro child k j h1 h2 h3
    cases p with
    | mk m r =>
      unfold crossoverLoop
      by_cases hj : j = k
      · subst hj
        rw [crossoverLoop_getD_lt rest _ (j + 1) j (by omega)]
        simp only [Nat.sub_self, List.getD_cons_zero]
        by_cases he : r % 2 = 0
        · rw [if_pos he, if_pos he]
          exact set_getD_self child j m h3
        · rw [if_neg he, if_neg he]
      · have hk1 : k + 1 ≤ j := by omega
        have hlen2 : j < (k + 1) + rest.length := by
          simp only [List.length_cons] at h2
          omega
        have hlen3 : j < (if r % 2 = 0 then child.set k m else child).length
            := by
          by_cases he : r % 2 = 0
          · rw [if_pos he, List.length_set]
            exact h3
          · rw [if_neg he]
            exact h3
        rw [ih (if r % 2 = 0 then child.set k m else child) (k + 1) j hk1
          hlen2 hlen3]
        have h5 : (if r % 2 = 0 then child.set k m else child).getD j 0
            = child.getD j 0 := by
          by_cases he : r % 2 = 0
          · rw [if_pos he]
            exact set_getD_ne child k j m hj
          · rw [if_neg he]
        rw [h5]
        have h6 : j - k = (j - (k + 1)) + 1 := by omega
        rw [h6, List.getD_cons_succ]

theorem zip_getD : ∀ (l1 l2 : List Nat) (i : Nat), i < l1.length →
    i < l2.length →
    (l1.zip l2).getD i (0, 0) = (l1.getD i 0, l2.getD i 0) := by
  intro l1
  induction l1 with
  | nil =>
    intro l2 i h1 h2
    exact absurd h1 (by simp)
  | cons a t ih =>
    intro l2 i h1 h2
    cases l2 with
    | nil => exact absurd h2 (by simp)
    | cons b u =>
      cases i with
      | zero => rfl
      | succ i2 =>
        show (t.zip u).getD i2 (0, 0) = (t.getD i2 0, u.getD i2 0)
        exact ih u i2 (by simpa using h1) (by simpa using h2)

theorem crossover_length (sire mare rand : List Nat) :
    (crossover sire mare rand).length = sire.length :=
  crossoverLoop_length (mare.zip rand) sire 0

/-- Positionwise description of the child genome: with genomes and
random bytes of equal (fixed) width, position i holds the mare's byte
when the i-th random byte is even and the sire's byte otherwise. -/
theorem crossover_getD (sire mare rand : List Nat) (i : Nat)
    (hi : i < sire.length) (hlen1 : mare.length = sire.length)
    (hlen2 : rand.length = sire.length) :
    (crossover sire mare rand).getD i 0 =
      (if rand.getD i 0 % 2 = 0 then mare.getD i 0 else sire.getD i 0) := by
  unfold crossover
  have hzlen : (mare.zip rand).length = sire.length := by
    rw [List.length_zip, hlen1, hlen2, Nat.min_self]
  rw [crossoverLoop_getD (mare.zip rand) sire 0 i (Nat.zero_le i)
    (by omega) hi]
  simp only [Nat.sub_zero]
  rw [zip_getD mare rand i (by omega) (by omega)]

/-! ## Concrete example states -/

/-- A creature with id and dna `[1]`, empty history. -/
def exChoco : Chocobo := ⟨[1], [1], 0, 0, 0, 0⟩

/-- A creature with id and dna `[2]`, listed at price 5. -/
def exChocoB : Chocobo := ⟨[2], [2], 5, 0, 0, 0⟩

/-- A one-creature state: creature `[1]` owned by account 0. -/
def exState1 : ChocoState :=
  { chocobos := fun h => if h = [1] then some exChoco else none,
    owners := fun h => if h = [1] then some 0 else none,
    allArray := fun i => if i = 0 then [1] else [],
    allCount := 1,
    allIndex := fun _ => 0,
    ownedArray := fun p => if p = (0, 0) then [1] else [],
    ownedCount := fun a => if a = 0 then 1 else 0,
    ownedIndex := fun _ => 0,
    nonce := 0,
    balances := fun _ => 0,
    events := [] }

theorem exState1_inv : RegistryInv exState1 := by
  refine ⟨⟨?_, ?_⟩, ⟨?_, ?_⟩, ?_⟩
  · intro i hi
    have h1 : i < 1 := hi
    have h0 : i = 0 := by omega
    subst h0
    exact ⟨rfl, rfl⟩
  · intro h hsome
    by_cases hh : h = [1]
    · subst hh
      exact ⟨Nat.zero_lt_one, rfl⟩
    · exfalso
      have hx : (if h = [1] then some exChoco else none).isSome = true :=
        hsome
      rw [if_neg hh] at hx
      exact Bool.noConfusion hx
  · intro a i hi
    by_cases ha : a = 0
    · subst ha
      have h1 : i < 1 := hi
      have h0 : i = 0 := by omega
      subst h0
      exact ⟨rfl, rfl⟩
    · exfalso
      have h1 : i < (if a = 0 then 1 else 0) := hi
      rw [if_neg ha] at h1
      omega
  · intro h a hown
    by_cases hh : h = [1]
    · subst hh
      have hx : (if ([1] : List Nat) = [1] then some 0 else none) = some a :=
        hown
      rw [if_pos rfl] at hx
      have ha : a = 0 := (Option.some.inj hx).symm
      subst ha
      exact ⟨Nat.zero_lt_one, rfl⟩
    · exfalso
      have hx : (if h = [1] then some 0 else (none : Option Nat)) = some a :=
        hown
      rw [if_neg hh] at hx
      exact Option.noConfusion hx
  · intro h
    by_cases hh : h = [1]
    · subst hh
      exact Iff.rfl
    · have hx1 : exState1.chocobos h = none := by
        show (if h = [1] then some exChoco else none) = none
        rw [if_neg hh]
      have hx2 : exState1.owners h = none := by
        show (if h = [1] then some 0 else none) = none
        rw [if_neg hh]
      rw [hx1, hx2]
      exact Iff.rfl

/-- A two-creature state: `[1]` (unlisted) and `[2]` (price 5), both
owned by account 0; every account has balance 100. -/
def exStateTwo : ChocoState :=
  { chocobos := fun h => if h = [1] then some exChoco
      else if h = [2] then some exChocoB else none,
    owners := fun h => if h = [1] then some 0
      else if h = [2] then some 0 else none,
    allArray := fun i => if i = 0 then [1] else if i = 1 then [2] else [],
    allCount := 2,
    allIndex := fun h => if h = [2] then 1 else 0,
    ownedArray := fun p => if p = (0, 0) then [1]
      else if p = (0, 1) then [2] else [],
    ownedCount := fun a => if a = 0 then 2 else 0,
    ownedIndex := fun h => if h = [2] then 1 else 0,
    nonce := 0,
    balances := fun _ => 100,
    events := [] }

/-- Like `exState1` but the creature's generation is at u64::MAX. -/
def exStateGen : ChocoState :=
  { exState1 with
    chocobos := fun h =>
      if h = [1] then some ⟨[1], [1], 0, 2 ^ 64 - 1, 0, 0⟩ else none }

/-- Like `exStateTwo` but creature `[1]` has raced u64::MAX times. -/
def exStateRaces : ChocoState :=
  { exStateTwo with
    chocobos := fun h =>
      if h = [1] then some ⟨[1], [1], 0, 0, 0, 2 ^ 64 - 1⟩
      else if h = [2] then some exChocoB else none }

/-- A state where creature `[1]` (price 5) is owned by account 0 and the
prospective buyer account 1 already holds u64::MAX creatures by count. -/
def exStateBuyer : ChocoState :=
  { chocobos := fun h => if h = [1] then some ⟨[1], [1], 5, 0, 0, 0⟩
      else none,
    owners := fun h => if h = [1] then some 0 else none,
    allArray := fun i => if i = 0 then [1] else [],
    allCount := 1,
    allIndex := fun _ => 0,
    ownedArray := fun p => if p = (0, 0) then [1] else [],
    ownedCount := fun a => if a = 0 then 1 else 2 ^ 64 - 1,
    ownedIndex := fun _ => 0,
    nonce := 0,
    balances := fun _ => 100,
    events := [] }

/-- Creature number i of the big state. -/
def bigChoco (i : Nat) : Chocobo := ⟨[i], [i], 0, 0, 0, 0⟩

/-- A well-formed state in which account 0 owns u64::MAX creatures
(ids `[0]` .. `[2^64 - 2]`): the largest population minting allows. -/
def exStateBig : ChocoState :=
  { chocobos := fun h => match h with
      | [i] => if i < 2 ^ 64 - 1 then some (bigChoco i) else none
      | _ => none,
    owners := fun h => match h with
      | [i] => if i < 2 ^ 64 - 1 then some 0 else none
      | _ => none,
    allArray := fun i => if i < 2 ^ 64 - 1 then [i] else [],
    allCount := 2 ^ 64 - 1,
    allIndex := fun h => match h with
      | [i] => i
      | _ => 0,
    ownedArray := fun p => if p.1 = 0 ∧ p.2 < 2 ^ 64 - 1 then [p.2] else [],
    ownedCount := fun a => if a = 0 then 2 ^ 64 - 1 else 0,
    ownedIndex := fun h => match h with
      | [i] => i
      | _ => 0,
    nonce := 0,
    balances := fun _ => 0,
    events := [] }

theorem exStateBig_inv : RegistryInv exStateBig := by
  refine ⟨⟨?_, ?_⟩, ⟨?_, ?_⟩, ?_⟩
  · intro i hi
    have hi2 : i < 2 ^ 64 - 1 := hi
    have h1 : exStateBig.allArray i = [i] := by
      show (if i < 2 ^ 64 - 1 then [i] else []) = [i]
      rw [if_pos hi2]
    rw [h1]
    constructor
    · rfl
    · show (if i < 2 ^ 64 - 1 then some (bigChoco i) else none).isSome = true
      rw [if_pos hi2]
      rfl
  · intro h hsome
    match h with
    | [] => exact absurd hsome (by intro hq; exact Bool.noConfusion hq)
    | i :: j :: t => exact absurd hsome (by intro hq; exact Bool.noConfusion hq)
    | [i] =>
      by_cases hi : i < 2 ^ 64 - 1
      · refine ⟨hi, ?_⟩
        show (if i < 2 ^ 64 - 1 then ([i] : List Nat) else []) = [i]
        rw [if_pos hi]
      · exfalso
        have hx : (if i < 2 ^ 64 - 1 then some (bigChoco i) else none).isSome
            = true := hsome
        rw [if_neg hi] at hx
        exact Bool.noConfusion hx
  · intro a i hi
    by_cases ha : a = 0
    · subst ha
      have hi2 : i < 2 ^ 64 - 1 := hi
      have h1 : exStateBig.ownedArray (0, i) = [i] := by
        show (if (0 : Nat) = 0 ∧ i < 2 ^ 64 - 1 then [i] else []) = [i]
        rw [if_pos ⟨rfl, hi2⟩]
      rw [h1]
      constructor
      · rfl
      · show (if i < 2 ^ 64 - 1 then some 0 else none) = some 0
        rw [if_pos hi2]
    · exfalso
      have h1 : i < (if a = 0 then 2 ^ 64 - 1 else 0) := hi
      rw [if_neg ha] at h1
      omega
  · intro h a hown
    match h with
    | [] => exact absurd hown (by intro hq; exact Option.noConfusion hq)
    | i :: j :: t => exact absurd hown (by intro hq; exact Option.noConfusion hq)
    | [i] =>
      have hx : (if i < 2 ^ 64 - 1 then some 0 else none) = some a := hown
      by_cases hi : i < 2 ^ 64 - 1
      · rw [if_pos hi] at hx
        have ha : a = 0 := (Option.some.inj hx).symm
        subst ha
        constructor
        · show (match ([i] : List Nat) with | [i] => i | _ => 0)
            < (if (0 : Nat) = 0 then 2 ^ 64 - 1 else 0)
          rw [if_pos rfl]
          exact hi
        · show (if (0 : Nat) = 0 ∧ i < 2 ^ 64 - 1 then ([i] : List Nat)
            else []) = [i]
          rw [if_pos ⟨rfl, hi⟩]
      · rw [if_neg hi] at hx
        exact Option.noConfusion hx
  · intro h
    match h with
    | [] => exact Iff.rfl
    | i :: j :: t => exact Iff.rfl
    | [i] =>
      by_cases hi : i < 2 ^ 64 - 1
      · show (if i < 2 ^ 64 - 1 then some (bigChoco i) else none).isSome = true
          ↔ (if i < 2 ^ 64 - 1 then some 0 else none).isSome = true
        rw [if_pos hi, if_pos hi]
        exact Iff.rfl
      · show (if i < 2 ^ 64 - 1 then some (bigChoco i) else none).isSome = true
          ↔ (if i < 2 ^ 64 - 1 then some 0 else none).isSome = true
        rw [if_neg hi, if_neg hi]
        exact Iff.rfl

/-- Equational description of a successful race. -/
theorem race_ok_eq (s : ChocoState) (sender : Nat) (id1 id2 : List Nat)
    (s2 : ChocoState) (hok : race s sender id1 id2 = (s2, none)) :
    (s.chocobos id1).isSome ∧ (s.chocobos id2).isSome ∧
    s2.chocobos = upd (upd s.chocobos id1 (some (raceUpd1 s id1 id2))) id2
      (some (raceUpd2 s id1 id2)) ∧
    s2.events = s.events ++ [.Raced sender id1 id2
      (if raceOutcome (choco_by_id s id1).dna (choco_by_id s id2).dna ≥ 0
        then id1 else id2)] := by
  unfold race at hok
  by_cases h1 : (s.chocobos id1).isSome
  · rw [if_pos h1] at hok
    by_cases h2 : (s.chocobos id2).isSome
    · rw [if_pos h2] at hok
      have hs2 : ({ s with
          chocobos := upd (upd s.chocobos id1 (some (raceUpd1 s id1 id2)))
            id2 (some (raceUpd2 s id1 id2)),
          nonce := (s.nonce + 1) % U64LIMIT,
          events := s.events ++ [.Raced sender id1 id2
            (if raceOutcome (choco_by_id s id1).dna (choco_by_id s id2).dna
              ≥ 0 then id1 else id2)] } : ChocoState) = s2 := pair_eq_fst hok
      refine ⟨h1, h2, ?_, ?_⟩
      · rw [← hs2]
      · rw [← hs2]
    · rw [if_neg h2] at hok
      exact absurd (congrArg Prod.snd hok) (by simp)
  · rw [if_neg h1] at hok
    exact absurd (congrArg Prod.snd hok) (by simp)

/-- The Raced event appended by a race between existing creatures. -/
theorem race_events (s : ChocoState) (c : Nat) (id1 id2 : List Nat)
    (h1 : (s.chocobos id1).isSome) (h2 : (s.chocobos id2).isSome) :
    (race s c id1 id2).1.events = s.events ++ [.Raced c id1 id2
      (if raceOutcome (choco_by_id s id1).dna (choco_by_id s id2).dna ≥ 0
        then id1 else id2)] := by
  unfold race
  rw [if_pos h1, if_pos h2]

/-- Every error return of `buy_chocobo` carries the unchanged state. -/
theorem buy_err_frame (s : ChocoState) (sender : Nat) (cid : List Nat)
    (mp : Nat) (t : ChocoState) (e : ChocoErr)
    (hb : buy_chocobo s sender cid mp = .err t e) : t = s := by
  unfold buy_chocobo at hb
  by_cases h1 : (s.chocobos cid).isSome
  · rw [if_pos h1] at hb
    cases ho : s.owners cid with
    | none =>
      simp only [ho] at hb
      exact ((BuyResult.err.injEq _ _ _ _).mp hb).1.symm
    | some owner =>
      simp only [ho] at hb
      by_cases h2 : owner = sender
      · rw [if_pos h2] at hb
        exact ((BuyResult.err.injEq _ _ _ _).mp hb).1.symm
      · rw [if_neg h2] at hb
        by_cases h3 : (choco_by_id s cid).price = 0
        · rw [if_pos h3] at hb
          exact ((BuyResult.err.injEq _ _ _ _).mp hb).1.symm
        · rw [if_neg h3] at hb
          by_cases h4 : mp < (choco_by_id s cid).price
          · rw [if_pos h4] at hb
            exact ((BuyResult.err.injEq _ _ _ _).mp hb).1.symm
          · rw [if_neg h4] at hb
            cases hc : currency_transfer s sender owner
                (choco_by_id s cid).price with
            | mk s1 oe1 =>
              cases oe1 with
              | some e1 =>
                simp only [hc] at hb
                exact ((BuyResult.err.injEq _ _ _ _).mp hb).1.symm
              | none =>
                simp only [hc] at hb
                cases ht : transfer_from s1 owner sender cid with
                | mk s1t oe2 =>
                  cases oe2 with
                  | some e2 =>
                    simp only [ht] at hb
                    exact BuyResult.noConfusion hb
                  | none =>
                    simp only [ht] at hb
                    exact BuyResult.noConfusion hb
  · rw [if_neg h1] at hb
    exact ((BuyResult.err.injEq _ _ _ _).mp hb).1.symm

/-- Success postconditions of `buy_chocobo`: the buyer owns the entity
and its price is reset to zero. -/
theorem buy_ok_post (s : ChocoState) (sender : Nat) (cid : List Nat)
    (mp : Nat) (t : ChocoState)
    (hb : buy_chocobo s sender cid mp = .ok t) :
    t.owners cid = some sender ∧ (choco_by_id t cid).price = 0 := by
  unfold buy_chocobo at hb
  by_cases h1 : (s.chocobos cid).isSome
  · rw [if_pos h1] at hb
    cases ho : s.owners cid with
    | none =>
      simp only [ho] at hb
      exact BuyResult.noConfusion hb
    | some owner =>
      simp only [ho] at hb
      by_cases h2 : owner = sender
      · rw [if_pos h2] at hb
        exact BuyResult.noConfusion hb
      · rw [if_neg h2] at hb
        by_cases h3 : (choco_by_id s cid).price = 0
        · rw [if_pos h3] at hb
          exact BuyResult.noConfusion hb
        · rw [if_neg h3] at hb
          by_cases h4 : mp < (choco_by_id s cid).price
          · rw [if_pos h4] at hb
            exact BuyResult.noConfusion hb
          · rw [if_neg h4] at hb
            cases hc : currency_transfer s sender owner
                (choco_by_id s cid).price with
            | mk s1 oe1 =>
              cases oe1 with
              | some e1 =>
                simp only [hc] at hb
                exact BuyResult.noConfusion hb
              | none =>
                simp only [hc] at hb
                cases ht : transfer_from s1 owner sender cid with
                | mk s1t oe2 =>
                  cases oe2 with
                  | some e2 =>
                    simp only [ht] at hb
                    exact BuyResult.noConfusion hb
                  | none =>
                    simp only [ht] at hb
                    have hrec := (BuyResult.ok.injEq _ _).mp hb
                    rw [← hrec]
                    have hok2 := transfer_from_ok s1 owner sender cid
                      (by rw [ht])
                    have hs1t : s1t = mkTransferState s1 owner sender cid := by
                      have hx := hok2.2.2.2
                      rw [ht] at hx
                      exact hx
                    constructor
                    · show s1t.owners cid = some sender
                      rw [hs1t, mkTransferState_owners, upd_self]
                    · show (((upd s1t.chocobos cid
                        (some { choco_by_id s cid with price := 0 }))
                          cid).getD default).price = 0
                      rw [upd_self]
                      rfl
  · rw [if_neg h1] at hb
    exact BuyResult.noConfusion hb

/-! ## Claim theorems -/

/-- Claim C1 (amended: the transfer handler must additionally be called
with a destination different from the sender; a self-transfer corrupts
the per-owner enumeration, see the counterexample): every handler
(create, set_price, transfer, buy, breed, race), when it succeeds from a
state satisfying the enumeration invariants — global reverse-index
consistency with the count equal to the number of distinct minted ids
(stated as a bijection between positions below the count and minted
ids), per-owner density/consistency, and every existing entity in
exactly one owner's array — yields a state satisfying them again. -/
theorem C1_handlers_preserve_invariants (s : ChocoState)
    (hInv : RegistryInv s) :
    (∀ sender rh s2, create_chocobo s sender rh = (s2, none) →
      RegistryInv s2) ∧
    (∀ sender cid p s2, set_price s sender cid p = (s2, none) →
      RegistryInv s2) ∧
    (∀ sender dst cid s2, sender ≠ dst →
      transfer s sender dst cid = (s2, none) → RegistryInv s2) ∧
    (∀ sender cid mp s2, buy_chocobo s sender cid mp = .ok s2 →
      RegistryInv s2) ∧
    (∀ sender sid mid rh s2, breed_chocobo s sender sid mid rh = (s2, none) →
      RegistryInv s2) ∧
    (∀ sender i1 i2 s2, race s sender i1 i2 = (s2, none) → RegistryInv s2) :=
  ⟨fun sender rh s2 h => create_pres s sender rh s2 hInv h,
   fun sender cid p s2 h => set_price_pres s sender cid p s2 hInv h,
   fun sender dst cid s2 hne h =>
     transfer_handler_pres s sender dst cid s2 hInv hne h,
   fun sender cid mp s2 h => buy_pres s sender cid mp s2 hInv h,
   fun sender sid mid rh s2 h => breed_pres s sender sid mid rh s2 hInv h,
   fun sender i1 i2 s2 h => race_pres s sender i1 i2 s2 hInv h⟩

theorem C1_witness :
    RegistryInv exState1 ∧ RegistryInv (race exState1 0 [1] [1]).1 :=
  ⟨exState1_inv,
   (C1_handlers_preserve_invariants exState1 exState1_inv).2.2.2.2.2
     0 [1] [1] (race exState1 0 [1] [1]).1 rfl⟩

/-- C1 counterexample: the transfer handler run by the owner with the
destination equal to themselves succeeds but breaks the per-owner
enumeration invariant (the owner's count becomes 2 while slot 0 holds
the default hash owned by nobody). -/
theorem C1_counterexample :
    RegistryInv exState1 ∧ (transfer exState1 0 0 [1]).2 = none ∧
    ¬ RegistryInv (transfer exState1 0 0 [1]).1 := by
  refine ⟨exState1_inv, rfl, ?_⟩
  intro hInvPost
  obtain ⟨-, ⟨oFwd, -⟩, -⟩ := hInvPost
  have h2 : (transfer exState1 0 0 [1]).1.ownedCount 0 = 2 := rfl
  have h0 := oFwd 0 0 (by rw [h2]; omega)
  have harr : (transfer exState1 0 0 [1]).1.ownedArray (0, 0) = [] := rfl
  rw [harr] at h0
  have hown := h0.2
  have hnone : (transfer exState1 0 0 [1]).1.owners [] = none := rfl
  rw [hnone] at hown
  exact Option.noConfusion hown

/-- Claim C2 (amended: the two accounts must be distinct; reassigning an
id from an account to itself succeeds but increases that account's count
by one instead, see the counterexample): a successful
`transfer_from a b id` from a state satisfying the registry invariant
makes b the owner, decrements a's per-owner count, increments b's,
leaves the global count unchanged, and the set of ids enumerated for a
afterwards is the set before minus the transferred id, independent of
array order. -/
theorem C2_reassign_owner (s : ChocoState) (a b : Nat) (cid : List Nat)
    (s2 : ChocoState) (hInv : RegistryInv s) (hab : a ≠ b)
    (h : transfer_from s a b cid = (s2, none)) :
    s2.owners cid = some b ∧
    s2.ownedCount a = s.ownedCount a - 1 ∧
    s2.ownedCount b = s.ownedCount b + 1 ∧
    s2.allCount = s.allCount ∧
    (∀ h2, ownsAt s2 a h2 ↔ (ownsAt s a h2 ∧ h2 ≠ cid)) := by
  have hok := transfer_from_ok s a b cid (by rw [h])
  have hs2 : s2 = mkTransferState s a b cid := by
    have hx := hok.2.2.2
    rw [h] at hx
    exact hx
  subst hs2
  refine ⟨?_, ?_, ?_, rfl, transfer_ownsAt s a b cid hInv hab hok.1⟩
  · rw [mkTransferState_owners, upd_self]
  · rw [mkTransferState_ownedCount, upd_of_ne _ _ _ _ hab, upd_self]
  · rw [mkTransferState_ownedCount, upd_self]

theorem C2_witness :
    (transfer_from exState1 0 1 [1]).1.owners [1] = some 1 ∧
    (transfer_from exState1 0 1 [1]).1.ownedCount 0
      = exState1.ownedCount 0 - 1 ∧
    (transfer_from exState1 0 1 [1]).1.ownedCount 1
      = exState1.ownedCount 1 + 1 ∧
    (transfer_from exState1 0 1 [1]).1.allCount = exState1.allCount := by
  have h := C2_reassign_owner exState1 0 1 [1]
    (transfer_from exState1 0 1 [1]).1 exState1_inv (by decide) rfl
  exact ⟨h.1, h.2.1, h.2.2.1, h.2.2.2.1⟩

/-- C2 counterexample: with a = b = 0 the reassignment succeeds but the
source account's count becomes 2, not count - 1 = 0. -/
theorem C2_counterexample :
    RegistryInv exState1 ∧
    (transfer_from exState1 0 0 [1]).2 = none ∧
    ¬ ((transfer_from exState1 0 0 [1]).1.ownedCount 0
        = exState1.ownedCount 0 - 1) := by
  refine ⟨exState1_inv, rfl, ?_⟩
  intro hq
  have h1 : (transfer_from exState1 0 0 [1]).1.ownedCount 0 = 2 := rfl
  have h2 : exState1.ownedCount 0 - 1 = 0 := rfl
  rw [h1, h2] at hq
  exact absurd hq (by decide)

/-- Claim C3: mint fails exactly when the id is already present or a
count increment overflows u64; a failing mint leaves the state
untouched; a successful mint increments the global count and the owner's
count by one, records the owner and the entity; and along any sequence
of mints a given id is minted successfully at most once. -/
theorem C3_mint (s : ChocoState) (dst : Nat) (cid : List Nat) (c : Chocobo) :
    ((mint s dst cid c).2.isSome ↔
      (s.chocobos cid).isSome ∨ U64LIMIT ≤ s.ownedCount dst + 1 ∨
      U64LIMIT ≤ s.allCount + 1) ∧
    (∀ e, (mint s dst cid c).2 = some e → (mint s dst cid c).1 = s) ∧
    ((mint s dst cid c).2 = none →
      (mint s dst cid c).1.allCount = s.allCount + 1 ∧
      (mint s dst cid c).1.ownedCount dst = s.ownedCount dst + 1 ∧
      (mint s dst cid c).1.owners cid = some dst ∧
      (mint s dst cid c).1.chocobos cid = some c) ∧
    (∀ ops i, mintSuccesses s ops i ≤ 1) := by
  refine ⟨mint_fail_iff s dst cid c, ?_, ?_,
    fun ops i => mintSuccesses_le_one ops s i⟩
  · intro e he
    exact mint_err_eq s dst cid c e he
  · intro hok
    have heq := (mint_ok_eq s dst cid c hok).2
    rw [heq]
    refine ⟨rfl, ?_, ?_, ?_⟩
    · rw [mkMintState_ownedCount, upd_self]
    · rw [mkMintState_owners, upd_self]
    · rw [mkMintState_chocobos, upd_self]

theorem C3_witness :
    (mint exState1 0 [1] exChoco).2.isSome ∧
    (mint exState1 0 [2] exChocoB).1.allCount = exState1.allCount + 1 ∧
    (mint exState1 0 [2] exChocoB).1.owners [2] = some 0 := by
  have h1 := (C3_mint exState1 0 [1] exChoco).1.mpr (Or.inl rfl)
  have h2 := (C3_mint exState1 0 [2] exChocoB).2.2.1 rfl
  exact ⟨h1, h2.1, h2.2.2.1⟩

/-- Claim C4 (amended: the two contenders must be distinct — racing a
creature against itself loses the wins increment because the second
insert overwrites the first — and the race counters and the winner's
wins counter must be below u64::MAX, since the increments are unchecked
and wrap; the loser's wins counter is untouched): a successful
race increments both race counters by one, increments exactly the
winner's wins counter, and the winner is creature 1 exactly when the
outcome accumulator (fold over the zipped genomes, +1 where
genome1[i] >= genome2[i], -1 otherwise, starting at 0) is >= 0. -/
theorem C4_race (s : ChocoState) (sender : Nat) (id1 id2 : List Nat)
    (s2 : ChocoState) (hne : id1 ≠ id2)
    (hok : race s sender id1 id2 = (s2, none))
    (hr1 : (choco_by_id s id1).races + 1 < U64LIMIT)
    (hr2 : (choco_by_id s id2).races + 1 < U64LIMIT)
    (hw : (if raceOutcome (choco_by_id s id1).dna (choco_by_id s id2).dna ≥ 0
      then (choco_by_id s id1).wins else (choco_by_id s id2).wins) + 1
      < U64LIMIT) :
    (choco_by_id s2 id1).races = (choco_by_id s id1).races + 1 ∧
    (choco_by_id s2 id2).races = (choco_by_id s id2).races + 1 ∧
    (if raceOutcome (choco_by_id s id1).dna (choco_by_id s id2).dna ≥ 0 then
      (choco_by_id s2 id1).wins = (choco_by_id s id1).wins + 1 ∧
      (choco_by_id s2 id2).wins = (choco_by_id s id2).wins
    else
      (choco_by_id s2 id1).wins = (choco_by_id s id1).wins ∧
      (choco_by_id s2 id2).wins = (choco_by_id s id2).wins + 1) ∧
    s2.events = s.events ++ [.Raced sender id1 id2
      (if raceOutcome (choco_by_id s id1).dna (choco_by_id s id2).dna ≥ 0
        then id1 else id2)] := by
  obtain ⟨h1, h2, hch, hev⟩ := race_ok_eq s sender id1 id2 s2 hok
  have e1 : choco_by_id s2 id1 = raceUpd1 s id1 id2 := by
    unfold choco_by_id
    rw [hch, upd_of_ne _ _ _ _ hne, upd_self]
    rfl
  have e2 : choco_by_id s2 id2 = raceUpd2 s id1 id2 := by
    unfold choco_by_id
    rw [hch, upd_self]
    rfl
  have w1 : (raceUpd1 s id1 id2).wins =
      if raceOutcome (choco_by_id s id1).dna (choco_by_id s id2).dna ≥ 0
      then ((choco_by_id s id1).wins + 1) % U64LIMIT
      else (choco_by_id s id1).wins := rfl
  have w2 : (raceUpd2 s id1 id2).wins =
      if raceOutcome (choco_by_id s id1).dna (choco_by_id s id2).dna ≥ 0
      then (choco_by_id s id2).wins
      else ((choco_by_id s id2).wins + 1) % U64LIMIT := rfl
  refine ⟨?_, ?_, ?_, hev⟩
  · rw [e1]
    show ((choco_by_id s id1).races + 1) % U64LIMIT
      = (choco_by_id s id1).races + 1
    exact Nat.mod_eq_of_lt hr1
  · rw [e2]
    show ((choco_by_id s id2).races + 1) % U64LIMIT
      = (choco_by_id s id2).races + 1
    exact Nat.mod_eq_of_lt hr2
  · by_cases ho : raceOutcome (choco_by_id s id1).dna (choco_by_id s id2).dna
      ≥ 0
    · rw [if_pos ho]
      rw [if_pos ho] at hw
      constructor
      · rw [e1, w1, if_pos ho]
        exact Nat.mod_eq_of_lt hw
      · rw [e2, w2, if_pos ho]
    · rw [if_neg ho]
      rw [if_neg ho] at hw
      constructor
      · rw [e1, w1, if_neg ho]
      · rw [e2, w2, if_neg ho]
        exact Nat.mod_eq_of_lt hw

theorem C4_witness :
    (choco_by_id (race exStateTwo 0 [1] [2]).1 [1]).races
      = (choco_by_id exStateTwo [1]).races + 1 ∧
    (choco_by_id (race exStateTwo 0 [1] [2]).1 [2]).races
      = (choco_by_id exStateTwo [2]).races + 1 := by
  have h := C4_race exStateTwo 0 [1] [2] (race exStateTwo 0 [1] [2]).1
    (by decide) rfl (by decide) (by decide) (by decide)
  exact ⟨h.1, h.2.1⟩

/-- C4 counterexample, two parts. First: racing creature [1] against
itself succeeds, its race counter ends at 1, but neither wins counter
increases (the claim demands exactly one `wins` increment). Second: a
creature whose race counter is at u64::MAX wraps to 0 instead of
increasing by one. -/
theorem C4_counterexample :
    ((race exState1 0 [1] [1]).2 = none ∧
      (choco_by_id (race exState1 0 [1] [1]).1 [1]).races = 1 ∧
      (choco_by_id exState1 [1]).wins = 0 ∧
      (choco_by_id (race exState1 0 [1] [1]).1 [1]).wins = 0) ∧
    ((race exStateRaces 0 [1] [2]).2 = none ∧
      (choco_by_id exStateRaces [1]).races = 2 ^ 64 - 1 ∧
      (choco_by_id (race exStateRaces 0 [1] [2]).1 [1]).races = 0) :=
  ⟨⟨rfl, rfl, rfl, rfl⟩, ⟨rfl, rfl, rfl⟩⟩

/-- Claim C5 (amended: provided the child generation
max(sire.gen, mare.gen) + 1 does not overflow u64 — the addition is
unchecked and wraps, see the counterexample; genome and random-byte
lengths are equal because hashes are fixed-width): a successful breed
mints to the caller a child whose genome byte i is the mare's byte when
random byte i is even and the sire's byte otherwise (never a third
value), with generation max + 1, price 0, wins 0 and race count 0. -/
theorem C5_breed (s : ChocoState) (sender : Nat)
    (sire_id mare_id rh : List Nat) (s2 : ChocoState)
    (hok : breed_chocobo s sender sire_id mare_id rh = (s2, none))
    (hlen1 : (choco_by_id s mare_id).dna.length
      = (choco_by_id s sire_id).dna.length)
    (hlen2 : rh.length = (choco_by_id s sire_id).dna.length)
    (hgen : max (choco_by_id s sire_id).gen (choco_by_id s mare_id).gen + 1
      < U64LIMIT) :
    (∀ i, i < (choco_by_id s sire_id).dna.length →
      (choco_by_id s2 rh).dna.getD i 0 =
        (if rh.getD i 0 % 2 = 0 then (choco_by_id s mare_id).dna.getD i 0
         else (choco_by_id s sire_id).dna.getD i 0)) ∧
    (choco_by_id s2 rh).dna.length = (choco_by_id s sire_id).dna.length ∧
    (choco_by_id s2 rh).gen
      = max (choco_by_id s sire_id).gen (choco_by_id s mare_id).gen + 1 ∧
    (choco_by_id s2 rh).price = 0 ∧
    (choco_by_id s2 rh).wins = 0 ∧
    (choco_by_id s2 rh).races = 0 ∧
    s2.owners rh = some sender := by
  unfold breed_chocobo at hok
  by_cases h1 : (s.chocobos sire_id).isSome
  · rw [if_pos h1] at hok
    by_cases h2 : (s.chocobos mare_id).isSome
    · rw [if_pos h2] at hok
      cases hmr : mint s sender rh
          ⟨rh, crossover (choco_by_id s sire_id).dna
             (choco_by_id s mare_id).dna rh, 0,
           (max (choco_by_id s sire_id).gen (choco_by_id s mare_id).gen + 1)
             % U64LIMIT, 0, 0⟩ with
      | mk s1 oe =>
        cases oe with
        | some e =>
          simp only [hmr] at hok
          exact absurd (congrArg Prod.snd hok) (by simp)
        | none =>
          simp only [hmr] at hok
          have hm2 : (mint s sender rh
              ⟨rh, crossover (choco_by_id s sire_id).dna
                 (choco_by_id s mare_id).dna rh, 0,
               (max (choco_by_id s sire_id).gen
                  (choco_by_id s mare_id).gen + 1) % U64LIMIT, 0, 0⟩).2
              = none := by
            rw [hmr]
          obtain ⟨hfresh, heq⟩ := mint_ok_eq s sender rh _ hm2
          rw [hmr] at heq
          have heq2 : s1 = mkMintState s sender rh
              ⟨rh, crossover (choco_by_id s sire_id).dna
                 (choco_by_id s mare_id).dna rh, 0,
               (max (choco_by_id s sire_id).gen
                  (choco_by_id s mare_id).gen + 1) % U64LIMIT, 0, 0⟩ := heq
          have hs2 := pair_eq_fst hok
          have hcb : choco_by_id s2 rh =
              ⟨rh, crossover (choco_by_id s sire_id).dna
                 (choco_by_id s mare_id).dna rh, 0,
               (max (choco_by_id s sire_id).gen
                  (choco_by_id s mare_id).gen + 1) % U64LIMIT, 0, 0⟩ := by
            unfold choco_by_id
            rw [← hs2]
            show ((s1.chocobos rh).getD default) = _
            rw [heq2, mkMintState_chocobos, upd_self]
            rfl
          have hgw : (max (choco_by_id s sire_id).gen
              (choco_by_id s mare_id).gen + 1) % U64LIMIT
              = max (choco_by_id s sire_id).gen
                  (choco_by_id s mare_id).gen + 1 := Nat.mod_eq_of_lt hgen
          refine ⟨?_, ?_, ?_, ?_, ?_, ?_, ?_⟩
          · intro i hi
            rw [hcb]
            show (crossover (choco_by_id s sire_id).dna
              (choco_by_id s mare_id).dna rh).getD i 0 = _
            exact crossover_getD (choco_by_id s sire_id).dna
              (choco_by_id s mare_id).dna rh i hi hlen1 hlen2
          · rw [hcb]
            exact crossover_length (choco_by_id s sire_id).dna
              (choco_by_id s mare_id).dna rh
          · rw [hcb]
            exact hgw
          · rw [hcb]
          · rw [hcb]
          · rw [hcb]
          · rw [← hs2]
            show s1.owners rh = some sender
            rw [heq2, mkMintState_owners, upd_self]
    · rw [if_neg h2] at hok
      exact absurd (congrArg Prod.snd hok) (by simp)
  · rw [if_neg h1] at hok
    exact absurd (congrArg Prod.snd hok) (by simp)

theorem C5_witness :
    (choco_by_id (breed_chocobo exStateTwo 0 [1] [2] [3]).1 [3]).gen = 1 ∧
    (breed_chocobo exStateTwo 0 [1] [2] [3]).1.owners [3] = some 0 ∧
    (choco_by_id (breed_chocobo exStateTwo 0 [1] [2] [3]).1 [3]).dna.getD 0 0
      = 1 := by
  have h := C5_breed exStateTwo 0 [1] [2] [3]
    (breed_chocobo exStateTwo 0 [1] [2] [3]).1 rfl (by decide) (by decide)
    (by decide)
  refine ⟨?_, h.2.2.2.2.2.2, ?_⟩
  · rw [h.2.2.1]
    decide
  · have h0 := h.1 0 (by decide)
    rw [h0]
    decide

/-- C5 counterexample: breeding two copies of a parent whose generation
is u64::MAX succeeds but the child generation wraps to 0 instead of
being max + 1 = 2^64. -/
theorem C5_counterexample :
    (breed_chocobo exStateGen 0 [1] [1] [2]).2 = none ∧
    (choco_by_id exStateGen [1]).gen = 2 ^ 64 - 1 ∧
    (choco_by_id (breed_chocobo exStateGen 0 [1] [1] [2]).1 [2]).gen = 0 ∧
    (choco_by_id (breed_chocobo exStateGen 0 [1] [1] [2]).1 [2]).gen
      ≠ max (choco_by_id exStateGen [1]).gen (choco_by_id exStateGen [1]).gen
        + 1 := by
  refine ⟨rfl, rfl, rfl, by decide⟩

/-- Claim C6: buy fails DoesNotExist when the id is absent, AlreadyOwner
when the caller is already the owner, NotForSale when the price is zero
and PriceTooHigh when the price exceeds max_price; every failing call
returns the state completely unchanged (ownership, prices, enumerations
and events included, since the whole state including the event log is
returned untouched); on success the buyer owns the entity and its price
is zero. -/
theorem C6_buy (s : ChocoState) (sender : Nat) (cid : List Nat) (mp : Nat) :
    ((s.chocobos cid).isSome = false →
      buy_chocobo s sender cid mp = .err s .DoesNotExist) ∧
    ((s.chocobos cid).isSome → s.owners cid = some sender →
      buy_chocobo s sender cid mp = .err s .AlreadyOwner) ∧
    (∀ o, (s.chocobos cid).isSome → s.owners cid = some o → o ≠ sender →
      (choco_by_id s cid).price = 0 →
      buy_chocobo s sender cid mp = .err s .NotForSale) ∧
    (∀ o, (s.chocobos cid).isSome → s.owners cid = some o → o ≠ sender →
      (choco_by_id s cid).price ≠ 0 → mp < (choco_by_id s cid).price →
      buy_chocobo s sender cid mp = .err s .PriceTooHigh) ∧
    (∀ t e, buy_chocobo s sender cid mp = .err t e → t = s) ∧
    (∀ t, buy_chocobo s sender cid mp = .ok t →
      t.owners cid = some sender ∧ (choco_by_id t cid).price = 0) := by
  refine ⟨?_, ?_, ?_, ?_,
    fun t e hb => buy_err_frame s sender cid mp t e hb,
    fun t hb => buy_ok_post s sender cid mp t hb⟩
  · intro hno
    unfold buy_chocobo
    rw [if_neg (by rw [hno]; exact Bool.false_ne_true)]
  · intro hs hown
    unfold buy_chocobo
    rw [if_pos hs]
    simp only [hown]
    rw [if_pos trivial]
  · intro o hs hown hno hp0
    unfold buy_chocobo
    rw [if_pos hs]
    simp only [hown]
    rw [if_neg hno, if_pos hp0]
  · intro o hs hown hno hp0 hmp
    unfold buy_chocobo
    rw [if_pos hs]
    simp only [hown]
    rw [if_neg hno, if_neg hp0, if_pos hmp]

/-- The state produced by the successful purchase used as witness. -/
def exBuyPost : ChocoState :=
  match buy_chocobo exStateTwo 1 [2] 10 with
  | .ok t => t
  | _ => exStateTwo

theorem C6_witness :
    buy_chocobo exStateTwo 1 [2] 3 = .err exStateTwo .PriceTooHigh ∧
    exBuyPost.owners [2] = some 1 ∧ (choco_by_id exBuyPost [2]).price = 0 := by
  have h1 := (C6_buy exStateTwo 1 [2] 3).2.2.2.1 0 rfl rfl (by decide)
    (by decide) (by decide)
  have h2 := (C6_buy exStateTwo 1 [2] 10).2.2.2.2.2 exBuyPost rfl
  exact ⟨h1, h2.1, h2.2⟩

/-- Claim C7: the spec demands that a count underflow or overflow inside
the transfer engine during buy's ownership reassignment surface as a
recoverable error; the source instead calls `.expect(..)`, an
unrecoverable panic. In a reachable-shape state where the buyer already
holds u64::MAX creatures by count, a well-formed purchase drives the
checked increment to overflow after the currency payment succeeded, and
the process aborts. This theorem evaluates the code at that failing
input: the buy call panics instead of returning an error value. -/
theorem C7_buy_panics : buy_chocobo exStateBuyer 1 [1] 10 = .panicked := rfl

/-- Claim C8: the race outcome is deterministic and depends only on the
two contenders' stored genomes: any two race calls on states where the
genomes of id1 and id2 agree append Raced events naming the same winner
(the winner term below is computed from the first state's genomes in
both conclusions), regardless of caller identity, nonce, seed or any
other state. The source computes random bytes but never uses them. -/
theorem C8_race_deterministic (s t : ChocoState) (c1 c2 : Nat)
    (id1 id2 : List Nat)
    (h1s : (s.chocobos id1).isSome) (h2s : (s.chocobos id2).isSome)
    (h1t : (t.chocobos id1).isSome) (h2t : (t.chocobos id2).isSome)
    (hd1 : (choco_by_id t id1).dna = (choco_by_id s id1).dna)
    (hd2 : (choco_by_id t id2).dna = (choco_by_id s id2).dna) :
    (race s c1 id1 id2).1.events = s.events ++ [.Raced c1 id1 id2
      (if raceOutcome (choco_by_id s id1).dna (choco_by_id s id2).dna ≥ 0
        then id1 else id2)] ∧
    (race t c2 id1 id2).1.events = t.events ++ [.Raced c2 id1 id2
      (if raceOutcome (choco_by_id s id1).dna (choco_by_id s id2).dna ≥ 0
        then id1 else id2)] := by
  constructor
  · exact race_events s c1 id1 id2 h1s h2s
  · rw [race_events t c2 id1 id2 h1t h2t, hd1, hd2]

theorem C8_witness :
    (race exState1 0 [1] [1]).1.events = exState1.events ++ [.Raced 0 [1] [1]
      (if raceOutcome (choco_by_id exState1 [1]).dna
        (choco_by_id exState1 [1]).dna ≥ 0 then [1] else [1])] ∧
    (race exStateTwo 7 [1] [1]).1.events = exStateTwo.events
      ++ [.Raced 7 [1] [1]
        (if raceOutcome (choco_by_id exState1 [1]).dna
          (choco_by_id exState1 [1]).dna ≥ 0 then [1] else [1])] :=
  C8_race_deterministic exState1 exStateTwo 0 7 [1] [1] rfl rfl rfl rfl
    rfl rfl

/-- Claim C9: a successful set_price by the owner changes only the
priced entity's price field — its other fields, every other entity, the
ownership map, both enumeration structures with their counts and
reverse maps, the nonce and the balances are all unchanged. -/
theorem C9_set_price (s : ChocoState) (sender : Nat) (cid : List Nat)
    (p : Nat) (s2 : ChocoState)
    (hok : set_price s sender cid p = (s2, none)) :
    choco_by_id s2 cid = { choco_by_id s cid with price := p } ∧
    (∀ h, h ≠ cid → s2.chocobos h = s.chocobos h) ∧
    s2.owners = s.owners ∧ s2.allArray = s.allArray ∧
    s2.allCount = s.allCount ∧ s2.allIndex = s.allIndex ∧
    s2.ownedArray = s.ownedArray ∧ s2.ownedCount = s.ownedCount ∧
    s2.ownedIndex = s.ownedIndex ∧ s2.nonce = s.nonce ∧
    s2.balances = s.balances := by
  unfold set_price at hok
  by_cases h1 : (s.chocobos cid).isSome
  · rw [if_pos h1] at hok
    cases ho : s.owners cid with
    | none =>
      simp only [ho] at hok
      exact absurd (congrArg Prod.snd hok) (by simp)
    | some owner =>
      simp only [ho] at hok
      by_cases h2 : owner = sender
      · rw [if_pos h2] at hok
        have hs2 := pair_eq_fst hok
        rw [← hs2]
        refine ⟨?_, ?_, rfl, rfl, rfl, rfl, rfl, rfl, rfl, rfl, rfl⟩
        · unfold choco_by_id
          show ((upd s.chocobos cid
            (some { choco_by_id s cid with price := p }) cid).getD default)
            = _
          rw [upd_self]
          rfl
        · intro h hh
          show upd s.chocobos cid
            (some { choco_by_id s cid with price := p }) h = s.chocobos h
          exact upd_of_ne _ _ _ _ hh
      · rw [if_neg h2] at hok
        exact absurd (congrArg Prod.snd hok) (by simp)
  · rw [if_neg h1] at hok
    exact absurd (congrArg Prod.snd hok) (by simp)

theorem C9_witness :
    choco_by_id (set_price exStateTwo 0 [1] 42).1 [1]
      = { choco_by_id exStateTwo [1] with price := 42 } ∧
    (set_price exStateTwo 0 [1] 42).1.owners = exStateTwo.owners ∧
    (set_price exStateTwo 0 [1] 42).1.ownedCount = exStateTwo.ownedCount := by
  have h := C9_set_price exStateTwo 0 [1] 42 (set_price exStateTwo 0 [1] 42).1
    rfl
  exact ⟨h.1, h.2.2.1, h.2.2.2.2.2.2.2.1⟩

/-- Claim C10 (amended: provided the account owns fewer than u64::MAX
creatures by count, so the destination count increment does not
overflow; at exactly u64::MAX the call fails, see the counterexample):
transferring a creature to oneself succeeds, the creature's owner stays
the same, the owner map is completely unchanged (so the account still
owns the same n creatures), yet the per-owner count becomes n + 1 and
the per-owner array gains an empty (default) slot at position n - 1. -/
theorem C10_self_transfer (s : ChocoState) (A : Nat) (cid : List Nat)
    (hInv : RegistryInv s) (hown : s.owners cid = some A)
    (hcap : s.ownedCount A + 1 < U64LIMIT) :
    (transfer s A A cid).2 = none ∧
    (transfer s A A cid).1.owners cid = some A ∧
    (transfer s A A cid).1.ownedCount A = s.ownedCount A + 1 ∧
    (∀ h, (transfer s A A cid).1.owners h = s.owners h) ∧
    (transfer s A A cid).1.ownedArray (A, s.ownedCount A - 1) = [] := by
  obtain ⟨-, ⟨-, oRev⟩, -⟩ := hInv
  obtain ⟨hposlt, -⟩ := oRev cid A hown
  have hn1 : 1 ≤ s.ownedCount A := by omega
  have htr : transfer s A A cid = transfer_from s A A cid := by
    unfold transfer
    simp only [hown]
    rw [if_pos trivial]
  have htf : transfer_from s A A cid = (mkTransferState s A A cid, none) := by
    unfold transfer_from
    simp only [hown]
    rw [if_pos trivial]
    have hcs : checked_sub (s.ownedCount A) 1 = some (s.ownedCount A - 1) := by
      unfold checked_sub
      rw [if_pos hn1]
    have hca : checked_add (s.ownedCount A) 1 = some (s.ownedCount A + 1) := by
      unfold checked_add
      rw [if_pos hcap]
    rw [hcs, hca]
  rw [htr, htf]
  refine ⟨rfl, ?_, ?_, ?_, ?_⟩
  · show (mkTransferState s A A cid).owners cid = some A
    rw [mkTransferState_owners, upd_self]
  · show (mkTransferState s A A cid).ownedCount A = s.ownedCount A + 1
    rw [mkTransferState_ownedCount, upd_self]
  · intro h
    show (mkTransferState s A A cid).owners h = s.owners h
    rw [mkTransferState_owners]
    by_cases hh : h = cid
    · rw [hh, upd_self, hown]
    · rw [upd_of_ne _ _ _ _ hh]
  · show (mkTransferState s A A cid).ownedArray (A, s.ownedCount A - 1) = []
    rw [mkTransferState_ownedArray]
    have k1 : ((A : Nat), s.ownedCount A - 1) ≠ (A, s.ownedCount A) := by
      simp
      omega
    rw [upd_of_ne _ _ _ _ k1, upd_self]

theorem C10_witness :
    (transfer exState1 0 0 [1]).2 = none ∧
    (transfer exState1 0 0 [1]).1.ownedCount 0 = exState1.ownedCount 0 + 1 ∧
    (transfer exState1 0 0 [1]).1.ownedArray (0, exState1.ownedCount 0 - 1)
      = [] := by
  have h := C10_self_transfer exState1 0 [1] exState1_inv rfl (by decide)
  exact ⟨h.1, h.2.2.1, h.2.2.2.2⟩

/-- C10 counterexample: in a well-formed state where the account owns
exactly u64::MAX creatures by count, the self-transfer does not return
success — the checked destination increment overflows. -/
theorem C10_counterexample :
    RegistryInv exStateBig ∧ exStateBig.owners [1] = some 0 ∧
    1 ≤ exStateBig.ownedCount 0 ∧
    (transfer exStateBig 0 0 [1]).2 ≠ none := by
  refine ⟨exStateBig_inv, rfl, by decide, by decide⟩
